import Mathlib

/-!
Verification of the raw camera ADC codec of the hessioxxx eventio library
(io_hess.c): the sum-mode record codec (write_hess_teladc_sums /
read_hess_teladc_sums), the sample-mode record codec
(write_hess_teladc_samples / read_hess_teladc_samples) and the low-level
amplitude coders they use.

The embedding is a shallow one:
 * C machine integers are modelled by Nat / Int with explicit two's-complement
   wrapping where the C code can overflow (functions toInt32, toInt16, u32ofInt,
   u16ofInt below).  Unsigned array cells (adc_sum, adc_sample, significant,
   adc_known) are Nat-valued total functions; the C code only ever reads
   indices below the declared counts.
 * The byte-stream primitives of the eventio base layer (io_basic.c) are not
   part of the sources under verification; they are modelled from the spec as
   a typed token stream: each put_xxx primitive appends one token per encoded
   scalar and each get_xxx primitive consumes one, so that a get of the same
   wire family as the put recovers the written value exactly (which is the
   contract the spec assigns to that layer).
 * Record ("item") framing is modelled by a Record structure carrying the
   type tag, version, identifier and the body token list; get_item_end simply
   discards whatever part of the body a reader did not consume, which is the
   token-level image of skipping to the end of a length-framed record.
 * Compile-time array bounds use the default (HESS phase 1) configuration of
   io_hess.h: H_MAX_PIX = 960, H_MAX_GAINS = 2, H_MAX_SLICES = 128.
-/

namespace Hessio

/-- Two's-complement wrap of an integer into the int32_t range. -/
def toInt32 (x : Int) : Int := (x + 2 ^ 31) % 2 ^ 32 - 2 ^ 31

/-- Two's-complement wrap of an integer into the int16_t range. -/
def toInt16 (x : Int) : Int := (x + 2 ^ 15) % 2 ^ 16 - 2 ^ 15

/-- Value of the C cast (uint32_t)x. -/
def u32ofInt (x : Int) : Nat := (x % 2 ^ 32).toNat

/-- Value of the C cast (uint16_t)x. -/
def u16ofInt (x : Int) : Nat := (x % 2 ^ 16).toNat

/-- Bitwise AND of a (possibly negative) C int with a mask, acting on the
32-bit two's-complement representation, as a Nat. -/
def bitand32 (x : Int) (m : Nat) : Nat := u32ofInt x &&& m

/-- C integer division (truncation toward zero). -/
def cdiv (a b : Int) : Int := Int.tdiv a b

/-!  Token-level model of the eventio primitive codec.

Modelled from the spec: the primitive scalar/vector encoders of the base
layer (io_basic.c is outside the verified sources).  Each token carries one
encoded scalar of a given wire family: 8-bit unsigned, 16-bit unsigned,
16-bit signed (put_short / put_vector_of_int), 32-bit signed (put_long),
signed variable-length count (put_scount, put_scount32,
put_vector_of_int_scount) and unsigned variable-length count (put_count). -/
inductive Tok where
  | u8  (v : Nat)
  | u16 (v : Nat)
  | i16 (v : Int)
  | i32 (v : Int)
  | sc  (v : Int)
  | cnt (v : Nat)
deriving DecidableEq

/-- Modelled from the spec: put_vector_of_uint16 of io_basic.c. -/
def put_vector_of_uint16 (vs : List Nat) : List Tok :=
  vs.map (fun v => Tok.u16 (v % 2 ^ 16))

/-- Modelled from the spec: put_vector_of_uint8 of io_basic.c. -/
def put_vector_of_uint8 (vs : List Nat) : List Tok :=
  vs.map (fun v => Tok.u8 (v % 2 ^ 8))

/-- Modelled from the spec: put_short of io_basic.c (16-bit signed scalar). -/
def put_short (v : Int) : List Tok := [Tok.i16 (toInt16 v)]

/-- Modelled from the spec: put_long of io_basic.c (32-bit signed scalar). -/
def put_long (v : Int) : List Tok := [Tok.i32 (toInt32 v)]

/-- Modelled from the spec: put_scount32 of io_basic.c (signed varint of an
int32_t argument). -/
def put_scount32 (v : Int) : List Tok := [Tok.sc (toInt32 v)]

/-- Modelled from the spec: put_scount of io_basic.c (signed varint). -/
def put_scount (v : Int) : List Tok := [Tok.sc v]

/-- Modelled from the spec: put_count of io_basic.c (unsigned varint). -/
def put_count (v : Nat) : List Tok := [Tok.cnt v]

/-- Modelled from the spec: put_vector_of_int of io_basic.c, which stores each
int element in the 16-bit signed wire format (hence the source comments that
the version-3 pixel lists fail with 32768 or more pixels). -/
def put_vector_of_int (vs : List Int) : List Tok :=
  vs.map (fun v => Tok.i16 (toInt16 v))

/-- Modelled from the spec: put_vector_of_int_scount of io_basic.c (signed
varint per element, int32 range). -/
def put_vector_of_int_scount (vs : List Int) : List Tok :=
  vs.map (fun v => Tok.sc (toInt32 v))

/-- Modelled from the spec: get_short of io_basic.c. -/
def get_short : List Tok → Option (Int × List Tok)
  | Tok.i16 v :: r => some (v, r)
  | _ => none

/-- Modelled from the spec: get_long of io_basic.c. -/
def get_long : List Tok → Option (Int × List Tok)
  | Tok.i32 v :: r => some (v, r)
  | _ => none

/-- Modelled from the spec: get_scount32 of io_basic.c (signed varint read,
result reduced to the int32_t range). -/
def get_scount32 : List Tok → Option (Int × List Tok)
  | Tok.sc v :: r => some (toInt32 v, r)
  | _ => none

/-- Modelled from the spec: get_scount of io_basic.c. -/
def get_scount : List Tok → Option (Int × List Tok)
  | Tok.sc v :: r => some (v, r)
  | _ => none

/-- Modelled from the spec: get_count of io_basic.c. -/
def get_count : List Tok → Option (Nat × List Tok)
  | Tok.cnt v :: r => some (v, r)
  | _ => none

/-- Modelled from the spec: get_vector_of_uint16 of io_basic.c. -/
def get_vector_of_uint16 : Nat → List Tok → Option (List Nat × List Tok)
  | 0, s => some ([], s)
  | n + 1, Tok.u16 v :: s =>
    match get_vector_of_uint16 n s with
    | some (vs, r) => some (v :: vs, r)
    | none => none
  | _ + 1, _ => none

/-- Modelled from the spec: get_vector_of_uint8 of io_basic.c. -/
def get_vector_of_uint8 : Nat → List Tok → Option (List Nat × List Tok)
  | 0, s => some ([], s)
  | n + 1, Tok.u8 v :: s =>
    match get_vector_of_uint8 n s with
    | some (vs, r) => some (v :: vs, r)
    | none => none
  | _ + 1, _ => none

/-- Modelled from the spec: get_vector_of_int of io_basic.c (16-bit signed
wire format per element). -/
def get_vector_of_int : Nat → List Tok → Option (List Int × List Tok)
  | 0, s => some ([], s)
  | n + 1, Tok.i16 v :: s =>
    match get_vector_of_int n s with
    | some (vs, r) => some (v :: vs, r)
    | none => none
  | _ + 1, _ => none

/-- Modelled from the spec: get_vector_of_int_scount of io_basic.c. -/
def get_vector_of_int_scount : Nat → List Tok → Option (List Int × List Tok)
  | 0, s => some ([], s)
  | n + 1, Tok.sc v :: s =>
    match get_vector_of_int_scount n s with
    | some (vs, r) => some (toInt32 v :: vs, r)
    | none => none
  | _ + 1, _ => none

/-!  Record framing. -/

/-- Modelled from the spec: one length-framed, typed, versioned, identified
eventio item.  The writers below emit exactly one Record; the readers consume
one.  Skipping to the end of an item (get_item_end) corresponds to discarding
the unread remainder of the body. -/
structure Record where
  rtype : Nat
  version : Nat
  ident : Nat
  body : List Tok
deriving DecidableEq

/-- Outcome of a write call: err models an early negative return before
put_item_begin, noop models the silent return 0 on unpopulated data (nothing
emitted), crash models reaching one of the assert(0) default branches, and
ok models a completely written record (put_item_end reporting success). -/
inductive WResult where
  | err (rc : Int)
  | noop
  | crash
  | ok (rec : Record)
deriving DecidableEq

/-!  Compile-time limits (default configuration of io_hess.h). -/

def H_MAX_PIX : Nat := 960
def H_MAX_GAINS : Nat := 2
def H_MAX_SLICES : Nat := 128
def HI_GAIN : Nat := 0
def LO_GAIN : Nat := 1
def IO_TYPE_HESS_TELADCSUM : Nat := 2012
def IO_TYPE_HESS_TELADCSAMP : Nat := 2013
def RAWSUM_FLAG : Nat := 2

/-!  The in-memory raw data record (struct hess_tel_event_adc_struct of
io_hess.h).  The C scalar fields are ints; the codec only ever stores
non-negative values in the fields modelled as Nat (counts, modes, flags and
the telescope id), while the three quantization parameters keep their signed
type because the code compares and subtracts them as signed ints.  Fixed
arrays are modelled as total functions. -/
structure AdcData where
  known : Nat
  tel_id : Nat
  num_pixels : Nat
  num_gains : Nat
  num_samples : Nat
  zero_sup_mode : Nat
  data_red_mode : Nat
  offset_hg8 : Int
  scale_hg8 : Int
  threshold : Int
  list_known : Nat
  list_size : Nat
  adc_list : Nat → Nat
  significant : Nat → Nat
  adc_known : Nat → Nat → Nat
  adc_sum : Nat → Nat → Nat
  adc_sample : Nat → Nat → Nat → Nat

/-- Pointwise update of a one-index array. -/
def fset (f : Nat → Nat) (i v : Nat) : Nat → Nat :=
  fun j => if j = i then v else f j

/-- Pointwise update of a one-index array of C ints. -/
def fsetI (f : Nat → Int) (i : Nat) (v : Int) : Nat → Int :=
  fun j => if j = i then v else f j

/-- Pointwise update of a gain-indexed pixel array. -/
def fset2 (f : Nat → Nat → Nat) (g i v : Nat) : Nat → Nat → Nat :=
  fun a b => if a = g then (if b = i then v else f a b) else f a b

/-- Pointwise update of one time slice of the sample array. -/
def fset3 (f : Nat → Nat → Nat → Nat) (g i s v : Nat) : Nat → Nat → Nat → Nat :=
  fun a b c => if a = g then (if b = i then (if c = s then v else f a b c) else f a b c)
               else f a b c

/-- Bulk replacement of one pixel's whole trace for one gain. -/
def fsetTrace (f : Nat → Nat → Nat → Nat) (g i : Nat) (tr : List Nat) :
    Nat → Nat → Nat → Nat :=
  fun a b c => if a = g then (if b = i then tr.getD c 0 else f a b c) else f a b c

/-!  Low-level amplitude coders (io_hess.c lines 3037-3127). -/

/-- put_adcsum_as_uint16 (io_hess.c:3040): legacy 16-bit format, clamping
each ADC sum at 65535 before the 16-bit store. -/
def put_adcsum_as_uint16 (vs : List Nat) : List Tok :=
  put_vector_of_uint16 (vs.map (fun v => if v < 65535 then v else 65535))

/-- get_adcsum_as_uint16 (io_hess.c:3055): reads the 16-bit values back. -/
def get_adcsum_as_uint16 (n : Nat) (s : List Tok) : Option (List Nat × List Tok) :=
  get_vector_of_uint16 n s

/-- Loop body of put_adcsum_differential (io_hess.c:3068): each amplitude is
cast to int32, its difference from the previous int32 value is emitted as a
signed varint.  The int32 subtraction is modelled as wrapping. -/
def putAdcDiffGo : Int → List Nat → List Tok
  | _, [] => []
  | prev, v :: vs =>
    Tok.sc (toInt32 (toInt32 (v : Int) - prev)) :: putAdcDiffGo (toInt32 (v : Int)) vs

/-- put_adcsum_differential (io_hess.c:3068) with the initial previous
amplitude of 0. -/
def put_adcsum_differential (vs : List Nat) : List Tok := putAdcDiffGo 0 vs

/-- Loop body of the differential ADC sum decoder: accumulates the varint
deltas in int32 arithmetic and stores each value as uint32. -/
def getAdcDiffGo : Int → Nat → List Tok → Option (List Nat × List Tok)
  | _, 0, s => some ([], s)
  | prev, n + 1, Tok.sc d :: s =>
    match getAdcDiffGo (toInt32 (toInt32 d + prev)) n s with
    | some (vs, r) => some (u32ofInt (toInt32 (toInt32 d + prev)) :: vs, r)
    | none => none
  | _, _ + 1, _ => none

/-- get_adcsum_differential (io_hess.c:3085); the active reader code calls
get_vector_of_uint32_scount_differential of io_basic.c, which the spec
describes as the same accumulate-the-deltas inverse, so both are modelled by
this one function. -/
def get_adcsum_differential (n : Nat) (s : List Tok) : Option (List Nat × List Tok) :=
  getAdcDiffGo 0 n s

/-- Loop body of put_adcsample_differential (io_hess.c:3101): like the sum
coder but over 16-bit sample amplitudes. -/
def putSampleDiffGo : Int → List Nat → List Tok
  | _, [] => []
  | prev, v :: vs =>
    Tok.sc (toInt32 ((v : Int) - prev)) :: putSampleDiffGo (v : Int) vs

/-- put_adcsample_differential (io_hess.c:3101). -/
def put_adcsample_differential (vs : List Nat) : List Tok := putSampleDiffGo 0 vs

/-- Loop body of the differential sample decoder: accumulates deltas in int32
arithmetic and stores each slice as uint16 (the in-memory sample type). -/
def getSampleDiffGo : Int → Nat → List Tok → Option (List Nat × List Tok)
  | _, 0, s => some ([], s)
  | prev, n + 1, Tok.sc d :: s =>
    match getSampleDiffGo (toInt32 (toInt32 d + prev)) n s with
    | some (vs, r) => some (u16ofInt (toInt32 (toInt32 d + prev)) :: vs, r)
    | none => none
  | _, _ + 1, _ => none

/-- get_adcsample_differential (io_hess.c:3117); the active reader code calls
get_vector_of_uint16_scount_differential of io_basic.c with, per the spec,
the same semantics, so both are modelled by this one function. -/
def get_adcsample_differential (n : Nat) (s : List Tok) : Option (List Nat × List Tok) :=
  getSampleDiffGo 0 n s

/-!  write_hess_teladc_sums (io_hess.c:3139-3817). -/

/-- Version selection of the sum-mode writer (io_hess.c:3160-3168).  Note that
the two bump conditions test the unmasked raw->zero_sup_mode and
raw->data_red_mode fields. -/
def sumVersion (raw : AdcData) : Nat :=
  let v := 3
  let v := if raw.num_pixels > 32767 ∧ raw.zero_sup_mode ≥ 2 then 4 else v
  if raw.num_pixels > 8191 ∧ raw.zero_sup_mode ≥ 2 ∧ raw.data_red_mode ≠ 0 then 4 else v

/-- Derived list of significant pixels (io_hess.c:3204-3207): all pixels with
any significance bit set, in ascending order. -/
def derivedAdcList (raw : AdcData) : List Nat :=
  (List.range raw.num_pixels).filter (fun i => raw.significant i != 0)

/-- Density-based self-selection of the zero-suppression scheme for mode 3
(io_hess.c:3214-3222). -/
def selectZeroSup (nlst numPix : Nat) : Nat :=
  if 17 * nlst / 16 > numPix then 0
  else if 15 * nlst > numPix then 1
  else 2

/-- Offset parameter of the 8-bit reduction as written to the stream
(io_hess.c:3262-3274): the raw field if positive, otherwise the mean
high-gain amplitude (int arithmetic), clamped to at most 32767. -/
def offsetHg8W (raw : AdcData) : Int :=
  let o :=
    if raw.offset_hg8 ≤ 0 then
      cdiv ((List.range raw.num_pixels).foldl
              (fun m k => m + toInt32 (raw.adc_sum HI_GAIN k : Int)) 0)
           (raw.num_pixels : Int)
    else raw.offset_hg8
  if o > 32767 then 32767 else o

/-- Scale parameter of the 8-bit reduction as written to the stream
(io_hess.c:3277-3280): clamped into the range 1..100. -/
def scaleHg8W (raw : AdcData) : Int :=
  if raw.scale_hg8 < 1 then 1 else if raw.scale_hg8 > 100 then 100 else raw.scale_hg8

/-- Narrow 8-bit quantization test of the writer (io_hess.c:3372-3378 and the
two copies at 3560-3566 and 3745-3751): the amplitude is cast to int, the
offset subtracted; if the difference is non-negative it is divided (after
adding half the scale) by the scale, and the 8-bit path is taken exactly when
the quotient is below 255.  Returns the quantized byte when the narrow path
is taken. -/
def hg8Quant (amp : Nat) (off half sc : Int) : Option Nat :=
  if toInt32 (amp : Int) - off ≥ 0 ∧ cdiv (toInt32 (amp : Int) - off + half) sc < 255 then
    some (cdiv (toInt32 (amp : Int) - off + half) sc).toNat
  else none

/-- Version split of the amplitude vector writes: versions up to 2 use the
legacy 16-bit format, later versions the differential varint format. -/
def sumVec (ver : Nat) (vs : List Nat) : List Tok :=
  if ver ≤ 2 then put_adcsum_as_uint16 vs else put_adcsum_differential vs

/-- Decomposition of the pixel range into the 16-pixel groups processed
between two flushes of the writer loops (and read back group-wise by the
reader): pairs (first pixel of the group, group size), ceil(n/16) groups with
all but the last of size 16. -/
def groups (k n : Nat) : List (Nat × Nat) :=
  (List.range ((n + 15) / 16)).map (fun g => (k + 16 * g, min 16 (n - 16 * g)))

/-- One group of the zero-suppression-0 / data-reduction-1 writer loop
(io_hess.c:3311-3352): low-gain flag word (bit j for the j-th pixel of the
group) and the retained low-gain amplitudes in pixel order. -/
def wSumD1Group (raw : AdcData) : List Nat → Nat × List Nat
  | [] => (0, [])
  | k :: ks =>
    let r := wSumD1Group raw ks
    if raw.adc_known LO_GAIN k &&& 1 ≠ 0 ∧ raw.num_gains ≥ 2 then
      (2 * r.1 + 1, raw.adc_sum LO_GAIN k :: r.2)
    else (2 * r.1, r.2)

/-- One group of the zero-suppression-0 / data-reduction-2 writer loop
(io_hess.c:3354-3418): (cflags, bflags, low-gain values, full-width high-gain
values, 8-bit high-gain values). -/
def wSumD2Group (raw : AdcData) (off half sc : Int) :
    List Nat → Nat × Nat × List Nat × List Nat × List Nat
  | [] => (0, 0, [], [], [])
  | k :: ks =>
    match wSumD2Group raw off half sc ks with
    | (c, b, lg, hg, h8) =>
      if toInt32 (raw.adc_sum HI_GAIN k : Int) ≥ raw.threshold ∧ raw.num_gains ≥ 2 then
        (2 * c + 1, 2 * b, raw.adc_sum LO_GAIN k :: lg, raw.adc_sum HI_GAIN k :: hg, h8)
      else
        match hg8Quant (raw.adc_sum HI_GAIN k) off half sc with
        | some v8 => (2 * c, 2 * b + 1, lg, hg, v8 :: h8)
        | none => (2 * c, 2 * b, lg, raw.adc_sum HI_GAIN k :: hg, h8)

/-- One group of the zero-suppression-1 / data-reduction-0 writer loop
(io_hess.c:3429-3480): (zbits, low-gain values, high-gain values of the
significant pixels). -/
def wSumZ1D0Group (raw : AdcData) : List Nat → Nat × List Nat × List Nat
  | [] => (0, [], [])
  | k :: ks =>
    match wSumZ1D0Group raw ks with
    | (z, lg, hg) =>
      if raw.significant k ≠ 0 then
        (2 * z + 1, raw.adc_sum LO_GAIN k :: lg, raw.adc_sum HI_GAIN k :: hg)
      else (2 * z, lg, hg)

/-- One group of the zero-suppression-1 / data-reduction-1 writer loop
(io_hess.c:3482-3535): (zbits, cflags, low-gain values, high-gain values). -/
def wSumZ1D1Group (raw : AdcData) : List Nat → Nat × Nat × List Nat × List Nat
  | [] => (0, 0, [], [])
  | k :: ks =>
    match wSumZ1D1Group raw ks with
    | (z, c, lg, hg) =>
      if raw.significant k ≠ 0 then
        if raw.adc_known LO_GAIN k &&& 1 ≠ 0 ∧ raw.num_gains ≥ 2 then
          (2 * z + 1, 2 * c + 1, raw.adc_sum LO_GAIN k :: lg, raw.adc_sum HI_GAIN k :: hg)
        else (2 * z + 1, 2 * c, lg, raw.adc_sum HI_GAIN k :: hg)
      else (2 * z, 2 * c, lg, hg)

/-- One group of the zero-suppression-1 / data-reduction-2 writer loop
(io_hess.c:3539-3616): (zbits, cflags, bflags, low-gain values, full-width
high-gain values, 8-bit high-gain values). -/
def wSumZ1D2Group (raw : AdcData) (off half sc : Int) :
    List Nat → Nat × Nat × Nat × List Nat × List Nat × List Nat
  | [] => (0, 0, 0, [], [], [])
  | k :: ks =>
    match wSumZ1D2Group raw off half sc ks with
    | (z, c, b, lg, hg, h8) =>
      if raw.significant k ≠ 0 then
        if toInt32 (raw.adc_sum HI_GAIN k : Int) ≥ raw.threshold ∧ raw.num_gains ≥ 2 then
          (2 * z + 1, 2 * c + 1, 2 * b,
           raw.adc_sum LO_GAIN k :: lg, raw.adc_sum HI_GAIN k :: hg, h8)
        else
          match hg8Quant (raw.adc_sum HI_GAIN k) off half sc with
          | some v8 => (2 * z + 1, 2 * c, 2 * b + 1, lg, hg, v8 :: h8)
          | none => (2 * z + 1, 2 * c, 2 * b, lg, raw.adc_sum HI_GAIN k :: hg, h8)
      else (2 * z, 2 * c, 2 * b, lg, hg, h8)

/-- Tokens flushed for one group in mode (0,1) (io_hess.c:3327-3351). -/
def wSumZ0D1Toks (raw : AdcData) (ver : Nat) (g : Nat × Nat) : List Tok :=
  let pix := List.range' g.1 g.2
  let r := wSumD1Group raw pix
  put_vector_of_uint16 [r.1]
    ++ (if raw.num_gains ≥ 2 then sumVec ver r.2 else [])
    ++ sumVec ver (pix.map (raw.adc_sum HI_GAIN))

/-- Tokens flushed for one group in mode (0,2) (io_hess.c:3390-3417). -/
def wSumZ0D2Toks (raw : AdcData) (ver : Nat) (off half sc : Int) (g : Nat × Nat) : List Tok :=
  match wSumD2Group raw off half sc (List.range' g.1 g.2) with
  | (c, b, lg, hg, h8) =>
    put_vector_of_uint16 [c] ++ put_vector_of_uint16 [b]
      ++ (if raw.num_gains ≥ 2 then sumVec ver lg else [])
      ++ sumVec ver hg
      ++ put_vector_of_uint8 h8

/-- Tokens flushed for one group in mode (1,0) (io_hess.c:3451-3478); an
all-zero flag word contributes nothing further. -/
def wSumZ1D0Toks (raw : AdcData) (ver : Nat) (g : Nat × Nat) : List Tok :=
  match wSumZ1D0Group raw (List.range' g.1 g.2) with
  | (z, lg, hg) =>
    put_vector_of_uint16 [z]
      ++ (if z ≠ 0 then
            (if raw.num_gains ≥ 2 then sumVec ver lg else []) ++ sumVec ver hg
          else [])

/-- Tokens flushed for one group in mode (1,1) (io_hess.c:3505-3533). -/
def wSumZ1D1Toks (raw : AdcData) (ver : Nat) (g : Nat × Nat) : List Tok :=
  match wSumZ1D1Group raw (List.range' g.1 g.2) with
  | (z, c, lg, hg) =>
    put_vector_of_uint16 [z]
      ++ (if z ≠ 0 then
            put_vector_of_uint16 [c]
              ++ (if raw.num_gains ≥ 2 then sumVec ver lg else []) ++ sumVec ver hg
          else [])

/-- Tokens flushed for one group in mode (1,2) (io_hess.c:3579-3614). -/
def wSumZ1D2Toks (raw : AdcData) (ver : Nat) (off half sc : Int) (g : Nat × Nat) : List Tok :=
  match wSumZ1D2Group raw off half sc (List.range' g.1 g.2) with
  | (z, c, b, lg, hg, h8) =>
    put_vector_of_uint16 [z]
      ++ (if z ≠ 0 then
            put_vector_of_uint16 [c] ++ put_vector_of_uint16 [b]
              ++ (if raw.num_gains ≥ 2 then sumVec ver lg else []) ++ sumVec ver hg
              ++ put_vector_of_uint8 h8
          else [])

/-- Pixel-list header and entries of the zero-suppression-2 payload
(io_hess.c:3642-3651 and parallels): a count-prefixed signed varint list for
version 4 and up, a 16-bit count and 16-bit entries before. -/
def putPixList (ver lsize : Nat) (entries : List Int) : List Tok :=
  if ver ≥ 4 then put_count lsize ++ put_vector_of_int_scount entries
  else put_short (lsize : Int) ++ put_vector_of_int entries

/-- Mode (2,0) payload (io_hess.c:3631-3673): the unmarked pixel list followed
by the low-gain (if present) and high-gain amplitudes in list order. -/
def wSumZ2D0Toks (raw : AdcData) (ver : Nat) : List Tok :=
  let idx := List.range raw.list_size
  putPixList ver raw.list_size (idx.map (fun j => (raw.adc_list j : Int)))
    ++ (if raw.num_gains ≥ 2 then
          sumVec ver (idx.map (fun j => raw.adc_sum LO_GAIN (raw.adc_list j)))
        else [])
    ++ sumVec ver (idx.map (fun j => raw.adc_sum HI_GAIN (raw.adc_list j)))

/-- Mode (2,1) list construction (io_hess.c:3674-3697), translated exactly as
written: a pixel whose low-gain channel is known is stored at slot mlg of the
scratch list (the running count of such pixels), while a pixel without
low-gain is stored at slot j (its list position) with the markup bit.  The
two indices differ as soon as the low-gain presence pattern is mixed, so
slots can be overwritten and others left untouched; the uninitialized scratch
storage is modelled as zero-filled.  Returns (scratch list, low-gain values,
low-gain count). -/
def wSumZ2D1Build (raw : AdcData) (ver : Nat) : (Nat → Int) × List Nat × Nat :=
  (List.range raw.list_size).foldl
    (fun acc j =>
      let k := raw.adc_list j
      if raw.adc_known LO_GAIN k &&& 1 ≠ 0 ∧ raw.num_gains ≥ 2 then
        (fsetI acc.1 acc.2.2 (k : Int), acc.2.1 ++ [raw.adc_sum LO_GAIN k], acc.2.2 + 1)
      else
        (fsetI acc.1 j ((k ||| (if ver ≥ 4 then 2097152 else 8192) : Nat) : Int),
         acc.2.1, acc.2.2))
    ((fun _ => 0), [], 0)

/-- Mode (2,1) payload (io_hess.c:3698-3726). -/
def wSumZ2D1Toks (raw : AdcData) (ver : Nat) : List Tok :=
  match wSumZ2D1Build raw ver with
  | (arr, lgv, _) =>
    putPixList ver raw.list_size ((List.range raw.list_size).map arr)
      ++ (if raw.num_gains ≥ 2 then sumVec ver lgv else [])
      ++ sumVec ver ((List.range raw.list_size).map
            (fun j => raw.adc_sum HI_GAIN (raw.adc_list j)))

/-- Mode (2,2) list construction (io_hess.c:3729-3769): every slot j receives
the pixel index with zero, one or two markup bits; the amplitude streams
collect the full-quality low/high pairs, the full-width high-gain values and
the quantized bytes.  Returns (marked entries, low-gain values, full-width
high-gain values, 8-bit values). -/
def wSumZ2D2Build (raw : AdcData) (ver : Nat) (off half sc : Int) :
    List Int × List Nat × List Nat × List Nat :=
  (List.range raw.list_size).foldl
    (fun acc j =>
      let k := raw.adc_list j
      if toInt32 (raw.adc_sum HI_GAIN k : Int) ≥ raw.threshold ∧ raw.num_gains ≥ 2 then
        (acc.1 ++ [(k : Int)], acc.2.1 ++ [raw.adc_sum LO_GAIN k],
         acc.2.2.1 ++ [raw.adc_sum HI_GAIN k], acc.2.2.2)
      else
        match hg8Quant (raw.adc_sum HI_GAIN k) off half sc with
        | some v8 =>
          (acc.1 ++ [((k ||| (if ver ≥ 4 then 6291456 else 24576) : Nat) : Int)],
           acc.2.1, acc.2.2.1, acc.2.2.2 ++ [v8])
        | none =>
          (acc.1 ++ [((k ||| (if ver ≥ 4 then 2097152 else 8192) : Nat) : Int)],
           acc.2.1, acc.2.2.1 ++ [raw.adc_sum HI_GAIN k], acc.2.2.2))
    ([], [], [], [])

/-- Mode (2,2) payload (io_hess.c:3770-3800). -/
def wSumZ2D2Toks (raw : AdcData) (ver : Nat) (off half sc : Int) : List Tok :=
  match wSumZ2D2Build raw ver off half sc with
  | (ents, lgv, hg16, hg8) =>
    putPixList ver raw.list_size ents
      ++ (if raw.num_gains ≥ 2 then sumVec ver lgv else [])
      ++ sumVec ver hg16
      ++ (if hg8.length > 0 then put_vector_of_uint8 hg8 else [])

/-- Payload of the sum-mode record after the header fields, dispatching on
the zero-suppression and data-reduction modes in effect (the switch starting
at io_hess.c:3289).  The unreachable mode combinations end in assert(0),
modelled as none. -/
def wSumPayload (raw : AdcData) (ver zsm drm : Nat) (off half sc : Int) : Option (List Tok) :=
  match zsm, drm with
  | 0, 0 => some (((List.range raw.num_gains).map
      (fun i => sumVec ver ((List.range raw.num_pixels).map (raw.adc_sum i)))).flatten)
  | 0, 1 => some (((groups 0 raw.num_pixels).map (wSumZ0D1Toks raw ver)).flatten)
  | 0, 2 => some (((groups 0 raw.num_pixels).map (wSumZ0D2Toks raw ver off half sc)).flatten)
  | 1, 0 => some (((groups 0 raw.num_pixels).map (wSumZ1D0Toks raw ver)).flatten)
  | 1, 1 => some (((groups 0 raw.num_pixels).map (wSumZ1D1Toks raw ver)).flatten)
  | 1, 2 => some (((groups 0 raw.num_pixels).map (wSumZ1D2Toks raw ver off half sc)).flatten)
  | 2, 0 => some (wSumZ2D0Toks raw ver)
  | 2, 1 => some (wSumZ2D1Toks raw ver)
  | 2, 2 => some (wSumZ2D2Toks raw ver off half sc)
  | _, _ => none

/-- Masked sum-mode zero-suppression request (io_hess.c:3147). -/
def sumZsm0 (raw : AdcData) : Nat := raw.zero_sup_mode &&& 31

/-- Masked sum-mode data-reduction request (io_hess.c:3148). -/
def sumDrm0 (raw : AdcData) : Nat := raw.data_red_mode &&& 31

/-- Data reduction after the zero-threshold check (io_hess.c:3171-3172). -/
def sumDrm1 (raw : AdcData) : Nat := if raw.threshold = 0 then 0 else sumDrm0 raw

/-- Zero suppression after the large-camera downgrade (io_hess.c:3180-3181). -/
def sumZsm1 (raw : AdcData) : Nat :=
  if raw.num_pixels ≥ 32768 ∧ sumZsm0 raw ≥ 2 ∧ sumVersion raw < 4 then 1 else sumZsm0 raw

/-- Data reduction after the large-camera downgrade (io_hess.c:3183-3184). -/
def sumDrm2 (raw : AdcData) : Nat :=
  if raw.num_pixels ≥ 8192 ∧ sumDrm1 raw > 0 ∧ sumVersion raw < 4 then 0 else sumDrm1 raw

/-- Whether the writer derives the pixel list itself (io_hess.c:3202). -/
def sumDerive (raw : AdcData) : Bool :=
  decide (sumZsm1 raw = 3 ∨ (sumZsm1 raw = 2 ∧ raw.list_known = 0))

/-- Zero suppression after the mode-3 density self-selection
(io_hess.c:3214-3222). -/
def sumZsm2 (raw : AdcData) : Nat :=
  if sumZsm1 raw = 3 then selectZeroSup (derivedAdcList raw).length raw.num_pixels
  else sumZsm1 raw

/-- Zero suppression actually emitted: the leftover mode-3 downgrade of
io_hess.c:3226-3230 (unreachable after the self-selection). -/
def sumZsm3 (raw : AdcData) : Nat := if sumZsm2 raw = 3 then 1 else sumZsm2 raw

/-- State of raw after the writer's in-place updates of adc_list, list_size
and list_known (io_hess.c:3202-3225), used by the payload emission and the
list-known flag bit. -/
def sumRawW (raw : AdcData) : AdcData :=
  let dl := derivedAdcList raw
  let rawD := if sumDerive raw then
      { raw with adc_list := fun j => dl.getD j 0, list_size := dl.length, list_known := 1 }
    else raw
  if sumZsm2 raw = 2 then { rawD with list_known := 1 } else rawD

/-- Identifier bit packing of the sum-mode writer (io_hess.c:3232-3244). -/
def sumFlags (raw : AdcData) : Nat :=
  sumZsm3 raw ||| (sumDrm2 raw <<< 5) |||
    ((if (sumRawW raw).list_known ≠ 0 then 1 else 0) <<< 10) |||
    (if sumVersion raw < 2 then
      (raw.num_pixels <<< 12) ||| ((if raw.num_gains = 2 then 1 else 0) <<< 24)
        ||| ((raw.tel_id &&& 31) <<< 25)
     else (raw.tel_id &&& 65535) <<< 12)

/-- Header fields of the sum-mode record body before the suppression payload
(io_hess.c:3247-3283). -/
def sumPre (raw : AdcData) : List Tok :=
  (if sumVersion raw ≥ 4 ∧ raw.data_red_mode = 2 then
      put_scount32 raw.threshold ++ put_scount32 raw.offset_hg8 ++ put_scount32 raw.scale_hg8
   else [])
  ++ (if sumVersion raw ≥ 2 then
        put_long (raw.num_pixels : Int) ++ put_short (raw.num_gains : Int)
      else [])
  ++ (if sumDrm2 raw = 2 then put_short (offsetHg8W raw) ++ put_short (scaleHg8W raw) else [])

/-- write_hess_teladc_sums (io_hess.c:3139-3817).  The in-place updates of
raw->adc_list, raw->list_size and raw->list_known performed when the writer
derives the pixel list are carried in the local record sumRawW that the rest
of the call then uses. -/
def write_hess_teladc_sums (raw : AdcData) : WResult :=
  if raw.known = 0 then WResult.noop else
  if raw.list_known > 2 ∨ sumZsm1 raw > 4 ∨ sumDrm2 raw > 2 ∨
      (raw.num_pixels > 4095 ∧ sumVersion raw < 2) ∨
      raw.num_gains < 1 ∨ raw.num_gains > 2 then WResult.err (-1) else
  match wSumPayload (sumRawW raw) (sumVersion raw) (sumZsm3 raw) (sumDrm2 raw)
      (offsetHg8W raw) (cdiv (scaleHg8W raw) 2) (scaleHg8W raw) with
  | none => WResult.crash
  | some pay =>
    WResult.ok ⟨IO_TYPE_HESS_TELADCSUM, sumVersion raw, sumFlags raw, sumPre raw ++ pay⟩

/-!  read_hess_teladc_sums (io_hess.c:3823-4376). -/

/-- Version split of the amplitude vector reads (the reader tests
version < 3, io_hess.c:3966 and parallels). -/
def rSumVec (ver n : Nat) (s : List Tok) : Option (List Nat × List Tok) :=
  if ver < 3 then get_adcsum_as_uint16 n s else get_adcsum_differential n s

/-- Number of set bits among the low n bits of a flag word (the counting
loops at io_hess.c:3987-3989 and parallels). -/
def countBits (m : Nat) : Nat → Nat
  | 0 => 0
  | n + 1 => (m &&& 1) + countBits (m >>> 1) n

/-- Row update of a gain-indexed pixel array: gain g, pixels base..base+|vs|-1
receive the elements of vs (the direct vector reads into array slices). -/
def setRow (f : Nat → Nat → Nat) (g base : Nat) (vs : List Nat) : Nat → Nat → Nat :=
  fun a b => if a = g ∧ base ≤ b ∧ b < base + vs.length then vs.getD (b - base) 0 else f a b

/-- Mode (0,0) payload read (io_hess.c:3958-3975): one full amplitude vector
per gain, stored in pixel order. -/
def rSumZ0D0Go (ver npix : Nat) : List Nat → AdcData → List Tok → Option (AdcData × List Tok)
  | [], st, s => some (st, s)
  | i :: is, st, s =>
    match rSumVec ver npix s with
    | none => none
    | some (vs, s1) => rSumZ0D0Go ver npix is { st with adc_sum := setRow st.adc_sum i 0 vs } s1

/-- Distribution loop for one group in mode (0,1) (io_hess.c:4014-4029),
merged with the direct high-gain slice read: pixel k gets the high-gain value
and, when its cflags bit is set, the next low-gain value with known bit 1;
otherwise low-gain 0 / not known. -/
def applyZ0D1 : AdcData → Nat → Nat → Nat → List Nat → List Nat → AdcData
  | st, _, 0, _, _, _ => st
  | st, k, n + 1, cf, lg, hg =>
    let st1 :=
      if cf &&& 1 ≠ 0 then
        { st with
          adc_sum := fset2 (fset2 st.adc_sum LO_GAIN k (lg.headD 0)) HI_GAIN k (hg.headD 0),
          adc_known := fset2 (fset2 st.adc_known LO_GAIN k 1) HI_GAIN k 1,
          significant := fset st.significant k 1 }
      else
        { st with
          adc_sum := fset2 (fset2 st.adc_sum LO_GAIN k 0) HI_GAIN k (hg.headD 0),
          adc_known := fset2 (fset2 st.adc_known LO_GAIN k 0) HI_GAIN k 1,
          significant := fset st.significant k 1 }
    applyZ0D1 st1 (k + 1) n (cf >>> 1) (if cf &&& 1 ≠ 0 then lg.tail else lg) hg.tail

/-- Group loop of the mode (0,1) reader (io_hess.c:3977-4031). -/
def rSumZ0D1Go (ver gains : Nat) :
    List (Nat × Nat) → AdcData → List Tok → Option (AdcData × List Tok)
  | [], st, s => some (st, s)
  | (k0, n) :: gs, st, s =>
    match get_vector_of_uint16 1 s with
    | none => none
    | some (cfl, s1) =>
      let cf := cfl.headD 0
      match (if gains ≥ 2 then rSumVec ver (countBits cf n) s1 else some ([], s1)) with
      | none => none
      | some (lg, s2) =>
        match rSumVec ver n s2 with
        | none => none
        | some (hg, s3) => rSumZ0D1Go ver gains gs (applyZ0D1 st k0 n cf lg hg) s3

/-- Element counts of one mode (0,2) group from its two flag words
(io_hess.c:4044-4055): (low-gain count, full-width high-gain count, 8-bit
count). -/
def countsD2 (cf bf : Nat) : Nat → Nat × Nat × Nat
  | 0 => (0, 0, 0)
  | n + 1 =>
    let r := countsD2 (cf >>> 1) (bf >>> 1) n
    if cf &&& 1 ≠ 0 then (r.1 + 1, r.2.1 + 1, r.2.2)
    else if bf &&& 1 ≠ 0 then (r.1, r.2.1, r.2.2 + 1)
    else (r.1, r.2.1 + 1, r.2.2)

/-- Distribution loop for one group in mode (0,2) (io_hess.c:4083-4101). -/
def applyZ0D2 (scale off : Nat) :
    AdcData → Nat → Nat → Nat → Nat → List Nat → List Nat → List Nat → AdcData
  | st, _, 0, _, _, _, _, _ => st
  | st, k, n + 1, cf, bf, lg, hg, h8 =>
    if cf &&& 1 ≠ 0 then
      applyZ0D2 scale off
        { st with
          adc_sum := fset2 (fset2 st.adc_sum LO_GAIN k (lg.headD 0)) HI_GAIN k (hg.headD 0),
          adc_known := fset2 (fset2 st.adc_known LO_GAIN k 1) HI_GAIN k 1,
          significant := fset st.significant k 1 }
        (k + 1) n (cf >>> 1) (bf >>> 1) lg.tail hg.tail h8
    else if bf &&& 1 ≠ 0 then
      applyZ0D2 scale off
        { st with
          adc_sum := fset2 st.adc_sum HI_GAIN k (h8.headD 0 * scale + off),
          adc_known := fset2 st.adc_known HI_GAIN k 1,
          significant := fset st.significant k 1 }
        (k + 1) n (cf >>> 1) (bf >>> 1) lg hg h8.tail
    else
      applyZ0D2 scale off
        { st with
          adc_sum := fset2 st.adc_sum HI_GAIN k (hg.headD 0),
          adc_known := fset2 st.adc_known HI_GAIN k 1,
          significant := fset st.significant k 1 }
        (k + 1) n (cf >>> 1) (bf >>> 1) lg hg.tail h8

/-- Group loop of the mode (0,2) reader (io_hess.c:4033-4104). -/
def rSumZ0D2Go (ver gains scale off : Nat) :
    List (Nat × Nat) → AdcData → List Tok → Option (AdcData × List Tok)
  | [], st, s => some (st, s)
  | (k0, n) :: gs, st, s =>
    match get_vector_of_uint16 1 s with
    | none => none
    | some (cfl, s1) =>
      match get_vector_of_uint16 1 s1 with
      | none => none
      | some (bfl, s2) =>
        let cf := cfl.headD 0
        let bf := bfl.headD 0
        let cnt := countsD2 cf bf n
        match (if gains ≥ 2 then rSumVec ver cnt.1 s2 else some ([], s2)) with
        | none => none
        | some (lg, s3) =>
          match rSumVec ver cnt.2.1 s3 with
          | none => none
          | some (hg, s4) =>
            match get_vector_of_uint8 cnt.2.2 s4 with
            | none => none
            | some (h8, s5) =>
              rSumZ0D2Go ver gains scale off gs (applyZ0D2 scale off st k0 n cf bf lg hg h8) s5

/-- Element counts of one zero-suppression-1 group for data reduction 1 or 2
(io_hess.c:4150-4171). -/
def countsZ1 (drm zb cf bf : Nat) : Nat → Nat × Nat × Nat
  | 0 => (0, 0, 0)
  | n + 1 =>
    let r := countsZ1 drm (zb >>> 1) (cf >>> 1) (bf >>> 1) n
    if zb &&& 1 = 0 then r
    else if cf &&& 1 ≠ 0 then (r.1 + 1, r.2.1 + 1, r.2.2)
    else if drm = 2 ∧ bf &&& 1 ≠ 0 then (r.1, r.2.1, r.2.2 + 1)
    else (r.1, r.2.1 + 1, r.2.2)

/-- Distribution loop for one zero-suppression-1 group (io_hess.c:4206-4241),
shared by the three data-reduction modes. -/
def applyZ1 (drm scale off : Nat) :
    AdcData → Nat → Nat → Nat → Nat → Nat → List Nat → List Nat → List Nat → AdcData
  | st, _, 0, _, _, _, _, _, _ => st
  | st, k, n + 1, zb, cf, bf, lg, hg, h8 =>
    if zb &&& 1 ≠ 0 then
      if drm < 1 ∨ cf &&& 1 ≠ 0 then
        applyZ1 drm scale off
          { st with
            adc_sum := fset2 (fset2 st.adc_sum LO_GAIN k (lg.headD 0)) HI_GAIN k (hg.headD 0),
            adc_known := fset2 (fset2 st.adc_known LO_GAIN k 1) HI_GAIN k 1,
            significant := fset st.significant k 1 }
          (k + 1) n (zb >>> 1) (cf >>> 1) (bf >>> 1) lg.tail hg.tail h8
      else if drm = 2 ∧ bf &&& 1 ≠ 0 then
        applyZ1 drm scale off
          { st with
            adc_sum := fset2 (fset2 st.adc_sum LO_GAIN k 0) HI_GAIN k (h8.headD 0 * scale + off),
            adc_known := fset2 st.adc_known HI_GAIN k 1,
            significant := fset st.significant k 1 }
          (k + 1) n (zb >>> 1) (cf >>> 1) (bf >>> 1) lg hg h8.tail
      else
        applyZ1 drm scale off
          { st with
            adc_sum := fset2 (fset2 st.adc_sum LO_GAIN k 0) HI_GAIN k (hg.headD 0),
            adc_known := fset2 st.adc_known HI_GAIN k 1,
            significant := fset st.significant k 1 }
          (k + 1) n (zb >>> 1) (cf >>> 1) (bf >>> 1) lg hg.tail h8
    else
      applyZ1 drm scale off st (k + 1) n (zb >>> 1) (cf >>> 1) (bf >>> 1) lg hg h8

/-- Group loop of the zero-suppression-1 reader (io_hess.c:4112-4246). -/
def rSumZ1Go (ver gains drm scale off : Nat) :
    List (Nat × Nat) → AdcData → List Tok → Option (AdcData × List Tok)
  | [], st, s => some (st, s)
  | (k0, n) :: gs, st, s =>
    match get_vector_of_uint16 1 s with
    | none => none
    | some (zbl, s1) =>
      let zb := zbl.headD 0
      if zb = 0 then rSumZ1Go ver gains drm scale off gs st s1
      else
        match (if drm ≥ 1 then get_vector_of_uint16 1 s1 else some ([], s1)) with
        | none => none
        | some (cfl, s2) =>
          match (if drm = 2 then get_vector_of_uint16 1 s2 else some ([], s2)) with
          | none => none
          | some (bfl, s3) =>
            let cf := cfl.headD 0
            let bf := bfl.headD 0
            let m := countBits zb n
            let cnt := if drm ≥ 1 then countsZ1 drm zb cf bf n else (m, m, 0)
            if m = 0 then rSumZ1Go ver gains drm scale off gs st s3
            else
              match (if gains ≥ 2 then rSumVec ver cnt.1 s3 else some ([], s3)) with
              | none => none
              | some (lg, s4) =>
                match rSumVec ver cnt.2.1 s4 with
                | none => none
                | some (hg, s5) =>
                  match (if cnt.2.2 > 0 then get_vector_of_uint8 cnt.2.2 s5 else some ([], s5)) with
                  | none => none
                  | some (h8, s6) =>
                    rSumZ1Go ver gains drm scale off gs
                      (applyZ1 drm scale off st k0 n zb cf bf lg hg h8) s6

/-- Decoding of one zero-suppression-2 list entry (io_hess.c:4279-4290):
masked pixel index, low-gain-suppressed bit and reduced-width bit, at the
version-dependent bit positions. -/
def z2Entry (ver : Nat) (v : Int) : Nat × Bool × Bool :=
  if ver ≥ 4 then (bitand32 v 2097151, bitand32 v 2097152 ≠ 0, bitand32 v 4194304 ≠ 0)
  else (bitand32 v 8191, bitand32 v 8192 ≠ 0, bitand32 v 16384 ≠ 0)

/-- Element counts of the zero-suppression-2 payload from the decoded entries
(io_hess.c:4291-4305). -/
def z2Counts (gains : Nat) : List (Nat × Bool × Bool) → Nat × Nat × Nat
  | [] => (0, 0, 0)
  | (_, wlg, rdw) :: es =>
    let r := z2Counts gains es
    if rdw then (r.1, r.2.1, r.2.2 + 1)
    else if gains < 2 ∨ wlg then (r.1, r.2.1 + 1, r.2.2)
    else (r.1 + 1, r.2.1 + 1, r.2.2)

/-- Distribution loop of the zero-suppression-2 reader (io_hess.c:4332-4356). -/
def applyZ2 (gains scale off : Nat) :
    AdcData → List (Nat × Bool × Bool) → List Nat → List Nat → List Nat → AdcData
  | st, [], _, _, _ => st
  | st, (k, wlg, rdw) :: es, lg, hg, h8 =>
    let st1 := { st with significant := fset st.significant k 1 }
    let st2 :=
      if rdw then
        { st1 with adc_sum := fset2 st1.adc_sum HI_GAIN k (h8.headD 0 * scale + off),
                   adc_known := fset2 st1.adc_known HI_GAIN k 1 }
      else
        { st1 with adc_sum := fset2 st1.adc_sum HI_GAIN k (hg.headD 0),
                   adc_known := fset2 st1.adc_known HI_GAIN k 1 }
    let st3 :=
      if gains ≤ 1 then { st2 with adc_known := fset2 st2.adc_known LO_GAIN k 0 }
      else if wlg then
        { st2 with adc_sum := fset2 st2.adc_sum LO_GAIN k 0,
                   adc_known := fset2 st2.adc_known LO_GAIN k 0 }
      else
        { st2 with adc_sum := fset2 st2.adc_sum LO_GAIN k (lg.headD 0),
                   adc_known := fset2 st2.adc_known LO_GAIN k 1 }
    applyZ2 gains scale off st3 es (if ¬(gains ≤ 1) ∧ ¬wlg then lg.tail else lg)
      (if rdw then hg else hg.tail) (if rdw then h8.tail else h8)

/-- Zero-suppression-2 payload read (io_hess.c:4254-4363): list header and
entries, classification, the three amplitude streams, then distribution.
Note the reader uses the legacy 16-bit amplitude format only for versions
below 2 here (io_hess.c:4307). -/
def rSumZ2 (ver gains scale off : Nat) (st : AdcData) (s : List Tok) :
    Option (AdcData × List Tok) :=
  match (if ver ≥ 4 then
          match get_count s with
          | none => none
          | some (c, s1) =>
            match get_vector_of_int_scount c s1 with
            | none => none
            | some (es, s2) => some (c, es, s2)
         else
          match get_short s with
          | none => none
          | some (c, s1) =>
            match get_vector_of_int c.toNat s1 with
            | none => none
            | some (es, s2) => some (c.toNat, es, s2)) with
  | none => none
  | some (lsize, ents, s2) =>
    let cls := ents.map (z2Entry ver)
    let cnt := z2Counts gains cls
    let st1 := { st with
      list_size := lsize,
      adc_list := fun j => if j < cls.length then (cls.getD j (0, false, false)).1 else st.adc_list j }
    match (if gains ≥ 2 then
             (if ver < 2 then get_adcsum_as_uint16 cnt.1 s2 else get_adcsum_differential cnt.1 s2)
           else some ([], s2)) with
    | none => none
    | some (lg, s3) =>
      match (if ver < 2 then get_adcsum_as_uint16 cnt.2.1 s3 else get_adcsum_differential cnt.2.1 s3) with
      | none => none
      | some (hg, s4) =>
        match (if cnt.2.2 > 0 then get_vector_of_uint8 cnt.2.2 s4 else some ([], s4)) with
        | none => none
        | some (h8, s5) => some (applyZ2 gains scale off st1 cls lg hg h8, s5)

/-- Everything of read_hess_teladc_sums after the header decoding
(io_hess.c:3885 on): limit checks, the data-reduction-2 offset/scale fields,
array initialization, the payload dispatch, and the final known flag. -/
def rSumAfterHeader (ver zsm drm npix ngains : Nat) (raw : AdcData) (s : List Tok) :
    Option (Int × AdcData) :=
  let raw1 := { raw with num_pixels := npix, num_gains := ngains, num_samples := 0 }
  if npix > H_MAX_PIX ∨ ngains > H_MAX_GAINS ∨ (npix ≥ 32768 ∧ zsm > 1) ∨ zsm > 2 ∨ drm > 2 then
    some (-1, { raw1 with num_pixels := 0 })
  else
  match (if drm = 2 then
           match get_short s with
           | none => none
           | some (o, s1) =>
             match get_short s1 with
             | none => none
             | some (c, s2) =>
               some ((u16ofInt o, if u16ofInt c = 0 then 1 else u16ofInt c),
                     { raw1 with offset_hg8 := (u16ofInt o : Int), scale_hg8 := (u16ofInt c : Int) }, s2)
         else some ((0, 1), raw1, s)) with
  | none => none
  | some (osc, raw2, s2) =>
    let k1 : Nat := if zsm = 0 ∧ drm = 0 then 1 else 0
    let rawI := { raw2 with
      significant := fun p => if p < npix then k1 else raw2.significant p,
      adc_known := fun g p => if g < ngains ∧ p < npix then k1 else raw2.adc_known g p,
      adc_sum := fun g p => if g < ngains ∧ p < npix then 0 else raw2.adc_sum g p }
    let res : Option (AdcData × List Tok) :=
      match zsm, drm with
      | 0, 0 => rSumZ0D0Go ver npix (List.range ngains) rawI s2
      | 0, 1 => rSumZ0D1Go ver ngains (groups 0 npix) rawI s2
      | 0, 2 => rSumZ0D2Go ver ngains osc.2 osc.1 (groups 0 npix) rawI s2
      | 1, _ => rSumZ1Go ver ngains drm osc.2 osc.1 (groups 0 npix) rawI s2
      | 2, _ => rSumZ2 ver ngains osc.2 osc.1 rawI s2
      | _, _ => none
    match res with
    | none => none
    | some (y, _) => some (0, { y with known := 1 })

/-- Optional reduction-parameter prefix of version-4 records with data
reduction 2 (io_hess.c:3858-3863): three signed varints stored into the
threshold, offset and scale fields. -/
def sumPreScounts (ver drm : Nat) (raw : AdcData) (s : List Tok) :
    Option (AdcData × List Tok) :=
  if ver ≥ 4 ∧ drm = 2 then
    match get_scount32 s with
    | none => none
    | some (thr, s1) =>
      match get_scount32 s1 with
      | none => none
      | some (off, s2) =>
        match get_scount32 s2 with
        | none => none
        | some (scl, s3) =>
          some ({ raw with threshold := thr, offset_hg8 := off, scale_hg8 := scl }, s3)
  else some (raw, s)

/-- Version-dependent decoding of telescope id, pixel count and gain count
(io_hess.c:3866-3883): packed identifier bits for versions 0 and 1, explicit
body fields from version 2 on. -/
def sumHdr (ver flags : Nat) (s : List Tok) : Option ((Nat × Nat × Nat) × List Tok) :=
  if ver = 0 then
    some (((flags >>> 25) &&& 31, (flags >>> 12) &&& 2047, (flags >>> 23) &&& 3), s)
  else if ver = 1 then
    some (((flags >>> 25) &&& 31, (flags >>> 12) &&& 4095,
           if (flags >>> 24) &&& 1 ≠ 0 then 2 else 1), s)
  else
    match get_long s with
    | none => none
    | some (np, s2) =>
      match get_short s2 with
      | none => none
      | some (ng, s3) => some (((flags >>> 12) &&& 65535, np.toNat, ng.toNat), s3)

/-- The reader state after the flag-bit unpacking (io_hess.c:3848-3864):
zero-suppression and data-reduction modes from the identifier, known and
num_pixels cleared. -/
def sumRawA (rec : Record) (raw0 : AdcData) : AdcData :=
  { raw0 with
    known := 0
    num_pixels := 0
    zero_sup_mode := rec.ident &&& 31
    data_red_mode := (rec.ident >>> 5) &&& 31 }

/-- read_hess_teladc_sums (io_hess.c:3823-4376).  The record type tag is
checked by get_item_begin; the telescope id decoded from the identifier is
only ever written, never read, so it is patched into the final state.  A
failed primitive read (truncation) yields none; the negative statuses of the
explicit error paths are returned with the state the C code leaves behind
(known = 0, num_pixels = 0). -/
def readSumsAfterPre (ver flags : Nat) (rawB : AdcData) (s1 : List Tok) :
    Option (Int × AdcData) :=
  match sumHdr ver flags s1 with
  | none => none
  | some ((tel, npix, ngains), s2) =>
    match rSumAfterHeader ver (flags &&& 31) ((flags >>> 5) &&& 31)
        npix ngains { rawB with list_known := (flags >>> 10) &&& 1 } s2 with
    | none => none
    | some (rc, y) => some (rc, { y with tel_id := tel })

def read_hess_teladc_sums (rec : Record) (raw0 : AdcData) : Option (Int × AdcData) :=
  if rec.rtype ≠ IO_TYPE_HESS_TELADCSUM then none else
  if rec.version > 4 then some (-1, { raw0 with known := 0, num_pixels := 0 }) else
  match sumPreScounts rec.version ((rec.ident >>> 5) &&& 31) (sumRawA rec raw0) rec.body with
  | none => none
  | some (rawB, s1) => readSumsAfterPre rec.version rec.ident rawB s1

/-!  write_hess_teladc_samples (io_hess.c:4504-4674). -/

/-- End-extension of the last open pixel range (io_hess.c:4578). -/
def updateLastEnd : List (Nat × Nat) → Nat → List (Nat × Nat)
  | [], _ => []
  | [a], i => [(a.1, i)]
  | a :: rest, i => a :: updateLastEnd rest i

/-- One step of the run-length range builder (io_hess.c:4576-4584): a
significant pixel extends the last range when the previous pixel was also
significant, otherwise opens a new single-pixel range.  The Bool component
carries the previous pixel's significance. -/
def addRangePoint (acc : List (Nat × Nat) × Bool) (i : Nat) (s : Bool) :
    List (Nat × Nat) × Bool :=
  if s ∧ acc.2 ∧ acc.1.length > 0 then (updateLastEnd acc.1 i, s)
  else if s then (acc.1 ++ [(i, i)], s)
  else (acc.1, s)

/-- Closed pixel ranges of the pixels satisfying pred, in ascending order
(the writer loop io_hess.c:4574-4601). -/
def buildRanges (pred : Nat → Bool) (npix : Nat) : List (Nat × Nat) :=
  ((List.range npix).foldl (fun acc i => addRangePoint acc i (pred i)) ([], false)).1

/-- Wire form of one range list (io_hess.c:4604-4614): a count followed per
range by either the negative singleton marker or the two endpoints. -/
def rangeToks : List (Nat × Nat) → List Tok
  | [] => []
  | (a, b) :: rs =>
    (if a = b then put_scount (-(a : Int) - 1)
     else put_scount (a : Int) ++ put_scount (b : Int)) ++ rangeToks rs

/-- Count-prefixed range list. -/
def putRangeList (l : List (Nat × Nat)) : List Tok :=
  put_scount32 (l.length : Int) ++ rangeToks l

/-- The full trace of one pixel and gain as stored in memory. -/
def traceOf (raw : AdcData) (g p : Nat) : List Nat :=
  (List.range raw.num_samples).map (raw.adc_sample g p)

/-- Differential traces of all pixels of a range list for one gain
(io_hess.c:4638-4640 and parallels). -/
def traceToksOver (raw : AdcData) (g : Nat) (rs : List (Nat × Nat)) : List Tok :=
  (rs.map (fun r => ((List.range' r.1 (r.2 + 1 - r.1)).map
      (fun p => put_adcsample_differential (traceOf raw g p))).flatten)).flatten

/-- write_hess_teladc_samples (io_hess.c:4504-4674). -/
def write_hess_teladc_samples (raw : AdcData) : WResult :=
  if raw.known = 0 then WResult.noop else
  let zsm := (raw.zero_sup_mode &&& 32) >>> 5
  let drm := if raw.data_red_mode &&& 32 ≠ 0 ∧ zsm ≠ 0 then 1 else 0
  let ver := if drm > 0 then 4 else 3
  if (raw.num_pixels > 4095 ∧ ver < 2) ∨ raw.num_gains < 1 ∨ raw.num_gains > H_MAX_GAINS then
    WResult.err (-1) else
  let zsm1 := if ver < 3 then 0 else zsm
  let flags :=
    (if ver < 2 then
      (raw.num_pixels <<< 12) ||| ((if raw.num_gains = 2 then 1 else 0) <<< 24)
        ||| ((raw.tel_id &&& 31) <<< 25)
     else (raw.tel_id &&& 65535) <<< 12)
    ||| (zsm1 &&& 31) ||| (if drm ≠ 0 then 32 else 0)
  let pre := (if ver ≥ 2 then put_long (raw.num_pixels : Int) ++ put_short (raw.num_gains : Int) else [])
             ++ put_short (raw.num_samples : Int)
  let pay :=
    if zsm1 ≠ 0 then
      let pl := buildRanges (fun i => raw.significant i &&& 32 != 0) raw.num_pixels
      let pllg :=
        if drm ≠ 0 ∧ raw.num_gains > 1 then
          buildRanges (fun i => (raw.significant i &&& 32 != 0) &&
                                (raw.adc_known LO_GAIN i &&& 2 != 0)) raw.num_pixels
        else []
      putRangeList pl
        ++ (if drm ≠ 0 ∧ raw.num_gains > 1 then putRangeList pllg else [])
        ++ (if raw.data_red_mode ≠ 0 then
              traceToksOver raw HI_GAIN pl
                ++ (if raw.num_gains > 1 then traceToksOver raw LO_GAIN pllg else [])
            else
              ((List.range raw.num_gains).map (fun g => traceToksOver raw g pl)).flatten)
    else if ver < 3 then
      ((List.range raw.num_gains).map (fun g =>
        ((List.range raw.num_pixels).map (fun p =>
          put_vector_of_uint16 (traceOf raw g p))).flatten)).flatten
    else
      ((List.range raw.num_gains).map (fun g =>
        ((List.range raw.num_pixels).map (fun p =>
          put_adcsample_differential (traceOf raw g p))).flatten)).flatten
  WResult.ok ⟨IO_TYPE_HESS_TELADCSAMP, ver, flags, pre ++ pay⟩

/-!  read_hess_teladc_samples (io_hess.c:4681-4940). -/

/-- Parsed form of one suppressed-sample pixel range: first pixel (never
negative after the singleton decoding) and last pixel as read (signed, an
empty range when below the first pixel). -/
def rSampRanges : Nat → List Tok → Option (List (Nat × Int) × List Tok)
  | 0, s => some ([], s)
  | n + 1, s =>
    match get_scount s with
    | none => none
    | some (p1, s1) =>
      if p1 < 0 then
        match rSampRanges n s1 with
        | none => none
        | some (rs, r) => some (((-p1 - 1).toNat, -p1 - 1) :: rs, r)
      else
        match get_scount s1 with
        | none => none
        | some (p2, s2) =>
          match rSampRanges n s2 with
          | none => none
          | some (rs, r) => some ((p1.toNat, p2) :: rs, r)

/-- Pixels of one parsed range, in order. -/
def rangePixels (r : Nat × Int) : List Nat :=
  List.range' r.1 (r.2 + 1 - (r.1 : Int)).toNat

/-- Sum of the freshly decoded trace of one pixel/gain (io_hess.c:4869-4871);
the C accumulator is a uint32 and, per the source comment, no overflow of the
32-bit unsigned sum is assumed (at most H_MAX_SLICES 16-bit values). -/
def traceSumOf (st : AdcData) (g p nsamp : Nat) : Nat :=
  (List.range nsamp).foldl (fun a i => a + st.adc_sample g p i) 0

/-- Decode of one pixel's trace in the zero-suppressed sample reader
(io_hess.c:4854-4886): store the trace, set the sample significance bit,
derive the sum when no channel information was known (known flag set only on
the derivation path here), then set the samples-known bit. -/
def rSampPixelZS (what nsamp g p : Nat) (st : AdcData) (s : List Tok) :
    Option (AdcData × List Tok) :=
  match get_adcsample_differential nsamp s with
  | none => none
  | some (tr, s1) =>
    let st1 := { st with adc_sample := fsetTrace st.adc_sample g p tr,
                         significant := fset st.significant p (st.significant p ||| 32) }
    let st2 :=
      if st1.adc_known g p = 0 then
        if what &&& RAWSUM_FLAG ≠ 0 then
          { st1 with adc_sum := fset2 st1.adc_sum g p (traceSumOf st1 g p nsamp),
                     adc_known := fset2 st1.adc_known g p 1 }
        else { st1 with adc_sum := fset2 st1.adc_sum g p 0 }
      else st1
    some ({ st2 with adc_known := fset2 st2.adc_known g p (st2.adc_known g p ||| 2) }, s1)

/-- Decode of one pixel's trace in the plain sample reader
(io_hess.c:4895-4930): as in the suppressed case but the sum-known flag is
set whenever no channel information was known, with or without the derived
sum. -/
def rSampPixelPlain (ver what nsamp g p : Nat) (st : AdcData) (s : List Tok) :
    Option (AdcData × List Tok) :=
  match (if ver < 3 then get_vector_of_uint16 nsamp s else get_adcsample_differential nsamp s) with
  | none => none
  | some (tr, s1) =>
    let st1 := { st with adc_sample := fsetTrace st.adc_sample g p tr }
    let st2 :=
      if st1.adc_known g p = 0 then
        if what &&& RAWSUM_FLAG ≠ 0 then
          { st1 with adc_sum := fset2 st1.adc_sum g p (traceSumOf st1 g p nsamp),
                     adc_known := fset2 st1.adc_known g p 1 }
        else { st1 with adc_sum := fset2 st1.adc_sum g p 0,
                        adc_known := fset2 st1.adc_known g p 1 }
      else st1
    some ({ st2 with adc_known := fset2 st2.adc_known g p (st2.adc_known g p ||| 2) }, s1)

/-- Fold of a per-pixel decode over a pixel list. -/
def rSampPixGo (step : Nat → AdcData → List Tok → Option (AdcData × List Tok)) :
    List Nat → AdcData → List Tok → Option (AdcData × List Tok)
  | [], st, s => some (st, s)
  | p :: ps, st, s =>
    match step p st s with
    | none => none
    | some (st1, s1) => rSampPixGo step ps st1 s1

/-- Fold of a per-pixel decode over all pixels of a range list. -/
def rSampRangeGo (step : Nat → AdcData → List Tok → Option (AdcData × List Tok)) :
    List (Nat × Int) → AdcData → List Tok → Option (AdcData × List Tok)
  | [], st, s => some (st, s)
  | r :: rs, st, s =>
    match rSampPixGo step (rangePixels r) st s with
    | none => none
    | some (st1, s1) => rSampRangeGo step rs st1 s1

/-- Gain loop of the zero-suppressed sample reader without data reduction
(io_hess.c:4850-4888). -/
def rSampGainGo (what nsamp : Nat) (rl : List (Nat × Int)) :
    List Nat → AdcData → List Tok → Option (AdcData × List Tok)
  | [], st, s => some (st, s)
  | g :: gs, st, s =>
    match rSampRangeGo (rSampPixelZS what nsamp g) rl st s with
    | none => none
    | some (st1, s1) => rSampGainGo what nsamp rl gs st1 s1

/-- Gain loop of the plain sample reader (io_hess.c:4893-4932). -/
def rSampPlainGainGo (ver what nsamp npix : Nat) :
    List Nat → AdcData → List Tok → Option (AdcData × List Tok)
  | [], st, s => some (st, s)
  | g :: gs, st, s =>
    match rSampPixGo (rSampPixelPlain ver what nsamp g) (List.range npix) st s with
    | none => none
    | some (st1, s1) => rSampPlainGainGo ver what nsamp npix gs st1 s1

/-- Trace decode of the unreachable reduced low-gain branch of the sample
reader: high-gain list pixels (io_hess.c:4828-4836) set the sample
significance bit and the samples-known bit without any sum handling. -/
def rSampPixelHGred (nsamp p : Nat) (st : AdcData) (s : List Tok) :
    Option (AdcData × List Tok) :=
  match get_adcsample_differential nsamp s with
  | none => none
  | some (tr, s1) =>
    some ({ st with adc_sample := fsetTrace st.adc_sample HI_GAIN p tr,
                    significant := fset st.significant p (st.significant p ||| 32),
                    adc_known := fset2 st.adc_known HI_GAIN p (st.adc_known HI_GAIN p ||| 2) }, s1)

/-- Trace decode of the unreachable reduced low-gain branch of the sample
reader: low-gain list pixels (io_hess.c:4837-4842). -/
def rSampPixelLGred (nsamp p : Nat) (st : AdcData) (s : List Tok) :
    Option (AdcData × List Tok) :=
  match get_adcsample_differential nsamp s with
  | none => none
  | some (tr, s1) =>
    some ({ st with adc_sample := fsetTrace st.adc_sample LO_GAIN p tr,
                    adc_known := fset2 st.adc_known LO_GAIN p (st.adc_known LO_GAIN p ||| 2) }, s1)

/-- Version-dependent decoding of telescope id, pixel count and gain count of
the sample-mode header (io_hess.c:4722-4743): packed identifier bits for
versions 0 and 1, explicit body fields from version 2 on. -/
def sampHdr (ver flags : Nat) (body : List Tok) : Option ((Nat × Nat × Nat) × List Tok) :=
  if ver = 0 then
    some (((flags >>> 25) &&& 31, (flags >>> 12) &&& 2047, (flags >>> 23) &&& 3), body)
  else if ver = 1 then
    some (((flags >>> 25) &&& 31, (flags >>> 12) &&& 4095,
           if (flags >>> 24) &&& 1 ≠ 0 then 2 else 1), body)
  else
    match get_long body with
    | none => none
    | some (np, s2) =>
      match get_short s2 with
      | none => none
      | some (ng, s3) => some (((flags >>> 12) &&& 65535, np.toNat, ng.toNat), s3)

/-- Reader state after the sample-mode header (io_hess.c:4705-4760): counts
stored, sample-mode suppression and reduction bits ored into the mode fields,
the list flag cleared. -/
def sampRawC (rec : Record) (raw0 : AdcData) (tel npix ngains nsamp : Nat) : AdcData :=
  { raw0 with
    tel_id := tel
    num_pixels := npix
    num_gains := ngains
    num_samples := nsamp
    zero_sup_mode := raw0.zero_sup_mode ||| ((rec.ident &&& 31) <<< 5)
    data_red_mode := raw0.data_red_mode ||| (((rec.ident >>> 5) &&& 31) <<< 5)
    list_known := 0 }

/-- The in-range significance and known masks applied before zero-suppressed
sample decoding (io_hess.c:4787-4800). -/
def sampMask (npix : Nat) (rawC : AdcData) : AdcData :=
  { rawC with
    significant := fun p => if p < npix then rawC.significant p &&& 31 else rawC.significant p,
    adc_known := fun g p => if (g = 0 ∨ g = 1) ∧ p < npix then rawC.adc_known g p &&& 1
                            else rawC.adc_known g p }

/-- The zero-suppressed sample payload (io_hess.c:4802-4888), including the
dead reduced branch. -/
def rSampZS (what nsamp ngains drm : Nat) (rawM : AdcData) (s2 : List Tok) :
    Option (Int × AdcData) :=
  match get_scount32 s2 with
  | none => none
  | some (ls, s3) =>
    if ls > (H_MAX_PIX : Int) then some (-1, rawM) else
    match rSampRanges ls.toNat s3 with
    | none => none
    | some (rl, s4) =>
      if drm ≠ 0 ∧ ngains > 1 then
        match get_scount32 s4 with
        | none => none
        | some (lslg, s5) =>
          if lslg > (H_MAX_PIX : Int) then some (-1, rawM) else
          match rSampRanges lslg.toNat s5 with
          | none => none
          | some (rllg, s6) =>
            match rSampRangeGo (rSampPixelHGred nsamp) rl rawM s6 with
            | none => none
            | some (st1, s7) =>
              match rSampRangeGo (rSampPixelLGred nsamp) rllg st1 s7 with
              | none => none
              | some (st2, _) => some (0, { st2 with known := st2.known ||| 2 })
      else
        match rSampGainGo what nsamp rl (List.range ngains) rawM s4 with
        | none => none
        | some (st1, _) => some (0, { st1 with known := st1.known ||| 2 })

/-- The plain sample payload (io_hess.c:4890-4932). -/
def rSampPlain (ver what nsamp npix ngains : Nat) (rawC : AdcData) (s2 : List Tok) :
    Option (Int × AdcData) :=
  match rSampPlainGainGo ver what nsamp npix (List.range ngains) rawC s2 with
  | none => none
  | some (st1, _) =>
    let st2 := { st1 with significant := fun p => if p < npix then 1 else st1.significant p }
    some (0, { st2 with known := st2.known ||| 2 })

/-- read_hess_teladc_samples (io_hess.c:4681-4940).  The known flag is not
cleared on entry (sums may have been read before); sample decoding ors bit 1
into it on success. -/
def read_hess_teladc_samples (rec : Record) (raw0 : AdcData) (what : Nat) :
    Option (Int × AdcData) :=
  if rec.rtype ≠ IO_TYPE_HESS_TELADCSAMP then none else
  if rec.version > 3 then some (-1, { raw0 with num_pixels := 0 }) else
  if ((rec.ident &&& 31) ≠ 0 ∧ rec.version < 3) ∨ ((rec.ident >>> 5) &&& 31) ≠ 0 ∨
      ((rec.ident >>> 10) &&& 1) ≠ 0 then some (-1, { raw0 with num_pixels := 0 }) else
  match sampHdr rec.version rec.ident rec.body with
  | none => none
  | some ((tel, npix, ngains), s1) =>
    match get_short s1 with
    | none => none
    | some (ns, s2) =>
      if npix > H_MAX_PIX ∨ ngains > H_MAX_GAINS ∨ ns.toNat > H_MAX_SLICES then
        some (-1, { sampRawC rec raw0 tel npix ngains ns.toNat with num_pixels := 0 })
      else if (rec.ident &&& 31) ≠ 0 then
        rSampZS what ns.toNat ngains ((rec.ident >>> 5) &&& 31)
          (sampMask npix (sampRawC rec raw0 tel npix ngains ns.toNat)) s2
      else
        rSampPlain rec.version what ns.toNat npix ngains
          (sampRawC rec raw0 tel npix ngains ns.toNat) s2

/-!  Auxiliary definitions for the claim statements. -/

/-- Rounding to the nearest integer, halves up: floor(x + 1/2) for
x = d / s.  This is the spec's reading of the quantized value
round((amplitude - offset_hg8) / scale_hg8). -/
def roundHalfUp (d s : Int) : Int := Int.fdiv (2 * d + s) (2 * s)

/-- Whether a write call produced a record. -/
def isOk : WResult → Bool
  | WResult.ok _ => true
  | _ => false

/-- Version of the record produced by a write call, if any. -/
def wVersion : WResult → Option Nat
  | WResult.ok r => some r.version
  | _ => none

/-- Zero-suppression-mode bits of the identifier of a produced record. -/
def wModeBits : WResult → Option Nat
  | WResult.ok r => some (r.ident &&& 31)
  | _ => none

/-- Decode of the record written for x into a fresh destination raw0. -/
def sumRoundTrip (x raw0 : AdcData) : Option (Int × AdcData) :=
  match write_hess_teladc_sums x with
  | WResult.ok rec => read_hess_teladc_sums rec raw0
  | _ => none

/-- Status of decoding the sample record written for x. -/
def sampRoundTripStatus (x raw0 : AdcData) (what : Nat) : Option Int :=
  match write_hess_teladc_samples x with
  | WResult.ok rec => (read_hess_teladc_samples rec raw0 what).map Prod.fst
  | _ => none

/-- A fully zeroed raw data record (the freshly allocated destination of the
read path and the unpopulated input of the write path). -/
def zeroAdc : AdcData :=
  { known := 0, tel_id := 0, num_pixels := 0, num_gains := 0, num_samples := 0,
    zero_sup_mode := 0, data_red_mode := 0, offset_hg8 := 0, scale_hg8 := 0,
    threshold := 0, list_known := 0, list_size := 0,
    adc_list := fun _ => 0, significant := fun _ => 0,
    adc_known := fun _ _ => 0, adc_sum := fun _ _ => 0, adc_sample := fun _ _ _ => 0 }

/-- Failing input for the sum-mode round trip: list-mode zero suppression
with low-gain reduction, two listed pixels of which only the second has a
known low-gain channel. -/
def cx1 : AdcData :=
  { zeroAdc with
    known := 1, tel_id := 1, num_pixels := 2, num_gains := 2, threshold := 5,
    zero_sup_mode := 2, data_red_mode := 1, list_known := 1, list_size := 2,
    adc_list := fun j => j, significant := fun _ => 1,
    adc_known := fun g p => if g = 1 then (if p = 1 then 1 else 0) else 1,
    adc_sum := fun g p => 100 * g + 10 + p }

/-- Failing input for the sample-mode round trip: sample-mode zero
suppression with sample-mode low-gain reduction enabled (bits 0x20), two
significant pixels, the low-gain trace of pixel 0 to be retained. -/
def cx2 : AdcData :=
  { zeroAdc with
    known := 1, tel_id := 1, num_pixels := 2, num_gains := 2, num_samples := 2,
    zero_sup_mode := 32, data_red_mode := 32,
    significant := fun p => if p ≤ 1 then 32 else 0,
    adc_known := fun g p => if g = 1 ∧ p = 0 then 2 else 0,
    adc_sample := fun g p s => 100 * g + 10 * p + s + 1 }

/-- A 40000-pixel camera written without sum-mode zero suppression. -/
def cx4 : AdcData :=
  { zeroAdc with
    known := 1, tel_id := 1, num_pixels := 40000, num_gains := 1,
    adc_known := fun _ _ => 1, significant := fun _ => 1 }

/-- Derivation request in list mode: zero_sup_mode 2 with no list known and
every one of 16 pixels significant (density above the plain-mode
threshold). -/
def cx8 : AdcData :=
  { zeroAdc with
    known := 1, tel_id := 1, num_pixels := 16, num_gains := 1,
    zero_sup_mode := 2, list_known := 0, significant := fun _ => 1,
    adc_sum := fun _ p => p }

/-- A version-3 sum-mode record with zero_sup_mode 0 and data_red_mode 1 for
one pixel and two gains whose low-gain presence flag word is zero. -/
def cx5rec : Record :=
  ⟨IO_TYPE_HESS_TELADCSUM, 3, 4128, [Tok.i32 1, Tok.i16 2, Tok.u16 0, Tok.sc 7]⟩

/-- Witness input for the valid-data theorems: three pixels, two gains,
plain mode. -/
def wit1 : AdcData :=
  { zeroAdc with
    known := 1, tel_id := 1, num_pixels := 3, num_gains := 2,
    adc_sum := fun g p => 100 * g + 10 + p,
    adc_known := fun _ _ => 1, significant := fun _ => 1 }

/-- Witness record for the sample reader theorems: version 3, plain sample
data, two pixels, one gain, two slices. -/
def wit9rec : Record :=
  ⟨IO_TYPE_HESS_TELADCSAMP, 3, 4096,
   [Tok.i32 2, Tok.i16 1, Tok.i16 2, Tok.sc 5, Tok.sc 2, Tok.sc 3, Tok.sc 4]⟩

/-- A version-3 zero-suppressed sample record (suppression bits 1 in the
identifier) for one pixel, one gain and one slice, whose pixel list names
pixel 0 twice as a singleton range, with a different trace at each visit. -/
def cx9rec : Record :=
  ⟨IO_TYPE_HESS_TELADCSAMP, 3, 4097,
   [Tok.i32 1, Tok.i16 1, Tok.i16 1, Tok.sc 2, Tok.sc (-1), Tok.sc (-1), Tok.sc 5, Tok.sc 9]⟩

/-- Destination state for the sample reader witness: the high-gain sum of
pixel 0 is already known with value 123. -/
def wit9raw : AdcData :=
  { zeroAdc with known := 1, adc_sum := fun g p => if g = 0 ∧ p = 0 then 123 else 0,
                 adc_known := fun g p => if g = 0 ∧ p = 0 then 1 else 0 }

/-- Stream part of the version-4 reduction-parameter prefix, independent of
the state being filled in. -/
def sumPreSkip (ver drm : Nat) (s : List Tok) : Option (List Tok) :=
  (sumPreScounts ver drm zeroAdc s).map Prod.snd

/-!  Arithmetic helper lemmas. -/

theorem toInt32_ofNat_small {n : Nat} (h : n < 2 ^ 31) : toInt32 (n : Int) = (n : Int) := by
  unfold toInt32
  omega

theorem divHalfRound (d s : Nat) (hs : 1 ≤ s) :
    (2 * d + s) / (2 * s) = (d + s / 2) / s := by
  have h1 := Nat.div_add_mod (d + s / 2) s
  have h2 := Nat.div_add_mod s 2
  have hrs : (d + s / 2) % s < s := Nat.mod_lt _ (by omega)
  apply Nat.div_eq_of_lt_le
  · have e : (d + s / 2) / s * (2 * s) = 2 * (s * ((d + s / 2) / s)) := by ring
    rw [e]
    omega
  · have e : ((d + s / 2) / s + 1) * (2 * s) = 2 * (s * ((d + s / 2) / s)) + 2 * s := by ring
    rw [e]
    omega

theorem quantRound (d s : Int) (hd : 0 ≤ d) (hs : 1 ≤ s) :
    roundHalfUp d s = cdiv (d + cdiv s 2) s := by
  obtain ⟨dn, rfl⟩ := Int.eq_ofNat_of_zero_le hd
  obtain ⟨sn, rfl⟩ := Int.eq_ofNat_of_zero_le (le_trans zero_le_one hs)
  have hsn : 1 ≤ sn := by exact_mod_cast hs
  unfold roundHalfUp cdiv
  rw [Int.fdiv_eq_tdiv (by positivity) (by positivity)]
  have e1 : (2 * ((dn : Int)) + (sn : Int)) = ((2 * dn + sn : Nat) : Int) := by push_cast; ring
  have e3 : (2 * ((sn : Int))) = ((2 * sn : Nat) : Int) := by push_cast; ring
  have e2 : ((sn : Int)).tdiv (2 : Int) = ((sn / 2 : Nat) : Int) := by
    have h := Int.ofNat_tdiv sn 2
    exact_mod_cast h.symm
  rw [e1, e3, e2]
  have e4 : (((dn : Int)) + ((sn / 2 : Nat) : Int)) = ((dn + sn / 2 : Nat) : Int) := by
    push_cast; ring
  rw [e4, ← Int.ofNat_tdiv, ← Int.ofNat_tdiv]
  exact_mod_cast divHalfRound dn sn hsn

theorem quantBoundNat (d s : Nat) (hs : 1 ≤ s) :
    (((d + s / 2) / s : Nat) : Int) * s - d ≤ s ∧
      (d : Int) - (((d + s / 2) / s : Nat) : Int) * s ≤ s := by
  have h1 := Nat.div_add_mod (d + s / 2) s
  have hrs : (d + s / 2) % s < s := Nat.mod_lt _ (by omega)
  have hh : s / 2 ≤ s := Nat.div_le_self s 2
  obtain ⟨q, hq⟩ : ∃ q, (d + s / 2) / s = q := ⟨_, rfl⟩
  obtain ⟨r, hr⟩ : ∃ r, (d + s / 2) % s = r := ⟨_, rfl⟩
  rw [hq, hr] at h1
  rw [hr] at hrs
  rw [hq]
  obtain ⟨t, ht⟩ : ∃ t, q * s = t := ⟨_, rfl⟩
  rw [Nat.mul_comm s q, ht] at h1
  have hc : ((q : Int)) * s = (t : Int) := by exact_mod_cast ht
  constructor
  · rw [hc]; omega
  · rw [hc]; omega

/-!  Theorems for the claims, with their supporting lemmas. -/

theorem getput_u16 (vs : List Nat) (rest : List Tok) :
    get_vector_of_uint16 vs.length (put_vector_of_uint16 vs ++ rest) =
      some (vs.map (· % 2 ^ 16), rest) := by
  induction vs with
  | nil => rfl
  | cons v t ih =>
    simp only [put_vector_of_uint16, List.map_cons, List.cons_append, List.length_cons,
      get_vector_of_uint16, List.append_eq] at ih ⊢
    rw [ih]

/-- C7: put_adcsum_as_uint16 followed by get_adcsum_as_uint16 returns every
amplitude unchanged when it is at most 65535 and returns exactly 65535 (never
a wrapped or negative value) when it exceeds 65535. -/
theorem C7_uint16_saturation (vs : List Nat) (rest : List Tok) :
    get_adcsum_as_uint16 vs.length (put_adcsum_as_uint16 vs ++ rest) =
      some (vs.map (fun v => if v ≤ 65535 then v else 65535), rest) := by
  have hm : ∀ v : Nat, (if v < 65535 then v else 65535) % 2 ^ 16 = if v ≤ 65535 then v else 65535 := by
    intro v
    by_cases h : v < 65535
    · rw [if_pos h, if_pos (Nat.le_of_lt h)]
      exact Nat.mod_eq_of_lt (by omega)
    · by_cases h2 : v ≤ 65535
      · have hv : v = 65535 := by omega
        subst hv
        norm_num
      · rw [if_neg h, if_neg h2]
        norm_num
  unfold get_adcsum_as_uint16 put_adcsum_as_uint16
  rw [show vs.length = (vs.map (fun v => if v < 65535 then v else 65535)).length by simp]
  rw [getput_u16, List.map_map]
  have he : ((fun v : Nat => v % 2 ^ 16) ∘ fun v : Nat => if v < 65535 then v else 65535) =
      (fun v : Nat => if v ≤ 65535 then v else 65535) := by
    funext v
    exact hm v
  rw [he]

/-- C10: an unpopulated raw data record (known flag clear) makes both writers
return 0 without emitting anything, not an error. -/
theorem C10_unpopulated_noop (raw : AdcData) (h : raw.known = 0) :
    write_hess_teladc_sums raw = WResult.noop ∧
      write_hess_teladc_samples raw = WResult.noop := by
  constructor
  · unfold write_hess_teladc_sums
    simp [h]
  · unfold write_hess_teladc_samples
    simp [h]

/-- Witness for C10 at the all-zero record. -/
theorem C10_unpopulated_noop_witness :
    zeroAdc.known = 0 ∧ write_hess_teladc_sums zeroAdc = WResult.noop ∧
      write_hess_teladc_samples zeroAdc = WResult.noop :=
  ⟨rfl, C10_unpopulated_noop zeroAdc rfl⟩

theorem cdivOfNat (a b : Nat) : cdiv (a : Int) (b : Int) = ((a / b : Nat) : Int) := by
  unfold cdiv
  exact_mod_cast (Int.ofNat_tdiv a b).symm

/-- C3 (counterexample to the claim as stated): with offset 10 and scale 2
clamped on the stream, amplitude 9 is not given the narrow-encoding markup
bit (the writer requires amplitude - offset to be non-negative before
quantizing), although the quantized value round((9 - 10) / 2) = 0 lies in
[0, 255); so the claimed "markup bit set if and only if the quantized value
lies in [0,255)" fails at this input. -/
theorem C3_markup_counterexample :
    hg8Quant 9 10 (cdiv 2 2) 2 = none ∧
      0 ≤ roundHalfUp ((9 : Int) - 10) 2 ∧ roundHalfUp ((9 : Int) - 10) 2 < 255 := by
  refine ⟨?_, by decide, by decide⟩
  decide

/-- C3 (amended): for every pixel on the narrow 8-bit high-gain path the
decoded amplitude v8 * scale_hg8 + offset_hg8 differs from the original
amplitude by at most scale_hg8 (the clamped value written to the stream);
and the narrow-encoding markup bit is set if and only if the amplitude does
not fall below offset_hg8 and the rounded quantized value is below 255
(amplitudes below the offset are never encoded narrowly, even when rounding
would bring the quantized value up to 0). -/
theorem C3_quantization_bound (amp : Nat) (off sc : Int) (hamp : amp < 2 ^ 31)
    (hsc1 : 1 ≤ sc) (hsc100 : sc ≤ 100) (hoff : 0 ≤ off) :
    (∀ v8, hg8Quant amp off (cdiv sc 2) sc = some v8 →
        ((v8 : Int) * sc + off - (amp : Int)).natAbs ≤ sc.toNat) ∧
    ((hg8Quant amp off (cdiv sc 2) sc).isSome = true ↔
        0 ≤ (amp : Int) - off ∧ roundHalfUp ((amp : Int) - off) sc < 255) := by
  have hto : toInt32 (amp : Int) = (amp : Int) := toInt32_ofNat_small hamp
  unfold hg8Quant
  rw [hto]
  by_cases hd : 0 ≤ (amp : Int) - off
  · obtain ⟨dn, hdn⟩ := Int.eq_ofNat_of_zero_le hd
    obtain ⟨sn, hsn⟩ := Int.eq_ofNat_of_zero_le (le_trans zero_le_one hsc1)
    have hsn1 : 1 ≤ sn := by rw [hsn] at hsc1; exact_mod_cast hsc1
    have h2 : cdiv (sn : Int) 2 = ((sn / 2 : Nat) : Int) := by
      have h := cdivOfNat sn 2
      exact_mod_cast h
    have hq : cdiv ((amp : Int) - off + cdiv sc 2) sc = ((dn + sn / 2) / sn : Nat) := by
      rw [hdn, hsn, h2]
      have e : ((dn : Int) + ((sn / 2 : Nat) : Int)) = ((dn + sn / 2 : Nat) : Int) := by
        push_cast; ring
      rw [e, cdivOfNat]
    have hrq : roundHalfUp ((amp : Int) - off) sc = cdiv ((amp : Int) - off + cdiv sc 2) sc :=
      quantRound _ _ hd hsc1
    by_cases hlt : cdiv ((amp : Int) - off + cdiv sc 2) sc < 255
    · rw [if_pos ⟨hd, hlt⟩]
      constructor
      · intro v8 hv8
        have hv : v8 = (cdiv ((amp : Int) - off + cdiv sc 2) sc).toNat :=
          (Option.some.injEq _ _).mp hv8 |>.symm
        have hb := quantBoundNat dn sn hsn1
        have hvq : v8 = (dn + sn / 2) / sn := by
          rw [hv, hq]
          exact Int.toNat_natCast _
        have hexp : (v8 : Int) * sc + off - (amp : Int) =
            (((dn + sn / 2) / sn : Nat) : Int) * sn - dn := by
          rw [hvq, ← hsn]
          have hiv : (amp : Int) = dn + off := by omega
          rw [hiv]
          ring
        have hsct : sc.toNat = sn := by rw [hsn]; exact Int.toNat_natCast _
        rw [hexp, hsct]
        omega
      · simp only [Option.isSome_some, true_iff]
        exact ⟨hd, by rw [hrq]; exact hlt⟩
    · have hneg : ¬(toInt32 (amp : Int) - off ≥ 0 ∧
          cdiv (toInt32 (amp : Int) - off + cdiv sc 2) sc < 255) := by
        rw [hto]
        intro hcon
        exact hlt hcon.2
      rw [hto] at hneg
      rw [if_neg hneg]
      constructor
      · intro v8 hv8
        exact absurd hv8 (by simp)
      · simp only [Option.isSome_none, Bool.false_eq_true, false_iff]
        intro hcon
        exact hlt (by rw [← hrq]; exact hcon.2)
  · have hneg : ¬(((amp : Int)) - off ≥ 0 ∧
        cdiv (((amp : Int)) - off + cdiv sc 2) sc < 255) := by
      intro hcon
      exact hd hcon.1
    rw [if_neg hneg]
    constructor
    · intro v8 hv8
      exact absurd hv8 (by simp)
    · simp only [Option.isSome_none, Bool.false_eq_true, false_iff]
      intro hcon
      exact hd hcon.1

/-- Witness for C3 at amplitude 30, offset 10, scale 2 (narrow path taken,
quantized value 10, decoded amplitude 30). -/
theorem C3_quantization_bound_witness :
    ((hg8Quant 30 10 (cdiv 2 2) 2).isSome = true ↔
        0 ≤ (30 : Int) - 10 ∧ roundHalfUp ((30 : Int) - 10) 2 < 255) :=
  (C3_quantization_bound 30 10 2 (by norm_num) (by norm_num) (by norm_num) (by norm_num)).2

/-- C1 (code bug evidence): the valid list-mode instance cx1 (two listed
pixels, low-gain known only for the second, data reduction 1) is accepted by
write_hess_teladc_sums, but the record it emits does not decode back: the
writer stores the low-gain-carrying pixel index at the slot of the running
low-gain count instead of its list position (io_hess.c:3684), so the emitted
pixel list is corrupted and read_hess_teladc_sums desynchronizes (in the
token model the amplitude streams run out). -/
theorem C1_list_mode_corruption :
    isOk (write_hess_teladc_sums cx1) = true ∧ sumRoundTrip cx1 zeroAdc = none := by
  constructor
  · rfl
  · rfl

/-- C2 (code bug evidence): with sample-mode zero suppression and sample-mode
low-gain data reduction requested (bits 0x20), write_hess_teladc_samples
emits a version-4 record with the reduction flag 0x20 in its identifier, and
read_hess_teladc_samples rejects exactly that record with status -1 (it
accepts no version beyond 3 and no nonzero reduction bits), so a record
written with low-gain reduction enabled is not decodable at all. -/
theorem C2_reduced_sample_rejected :
    wVersion (write_hess_teladc_samples cx2) = some 4 ∧
      sampRoundTripStatus cx2 zeroAdc 0 = some (-1) := by
  constructor
  · rfl
  · rfl

/-- C4 (counterexample to the claim as stated): the 40000-pixel instance cx4
with zero_sup_mode 0 is accepted by write_hess_teladc_sums, yet the emitted
record has version 3, not version 4 or higher: the version bump requires
list-mode zero suppression in addition to the large pixel count. -/
theorem C4_version_counterexample :
    cx4.num_pixels = 40000 ∧ wVersion (write_hess_teladc_sums cx4) = some 3 := by
  constructor
  · rfl
  · rfl

/-- C5 (counterexample to the claim as stated): the record cx5rec carries
zero_sup_mode 0 and data_red_mode 1 for one pixel and two gains; it decodes
successfully, the pixel is significant and its high-gain channel known, but
bit 0 of adc_known of the low gain stays clear because the pixel's low-gain
presence flag is unset. -/
theorem C5_low_gain_counterexample :
    (read_hess_teladc_sums cx5rec zeroAdc).map
        (fun r => (r.1, r.2.num_pixels, r.2.num_gains, r.2.significant 0,
                   r.2.adc_known HI_GAIN 0 &&& 1, r.2.adc_known LO_GAIN 0 &&& 1)) =
      some (0, 1, 2, 1, 1, 0) := by
  rfl

theorem testBit_hi {k a i : Nat} (ha : a < 2 ^ k) (h : k ≤ i) : a.testBit i = false :=
  Nat.testBit_lt_two_pow (lt_of_lt_of_le ha (Nat.pow_le_pow_right (by norm_num) h))

theorem flags_and31 (a b c t : Nat) (ha : a < 32) :
    (a ||| (b <<< 5) ||| (c <<< 10) ||| (t <<< 12)) &&& 31 = a := by
  apply Nat.eq_of_testBit_eq
  intro i
  rw [Nat.testBit_land, Nat.testBit_lor, Nat.testBit_lor, Nat.testBit_lor,
    Nat.testBit_shiftLeft, Nat.testBit_shiftLeft, Nat.testBit_shiftLeft,
    show (31 : Nat) = 2 ^ 5 - 1 by norm_num, Nat.testBit_two_pow_sub_one]
  by_cases h : i < 5
  · have h5 : ¬(i ≥ 5) := by omega
    have h10 : ¬(i ≥ 10) := by omega
    have h12 : ¬(i ≥ 12) := by omega
    simp [h, h5, h10, h12]
  · have ha0 : a.testBit i = false := testBit_hi (k := 5) (by norm_num; omega) (by omega)
    simp [h, ha0]

theorem flags_shift5_and31 (a b c t : Nat) (ha : a < 32) (hb : b < 32) :
    ((a ||| (b <<< 5) ||| (c <<< 10) ||| (t <<< 12)) >>> 5) &&& 31 = b := by
  apply Nat.eq_of_testBit_eq
  intro i
  rw [Nat.testBit_land, Nat.testBit_shiftRight, Nat.testBit_lor, Nat.testBit_lor,
    Nat.testBit_lor, Nat.testBit_shiftLeft, Nat.testBit_shiftLeft, Nat.testBit_shiftLeft,
    show (31 : Nat) = 2 ^ 5 - 1 by norm_num, Nat.testBit_two_pow_sub_one]
  have haa : a.testBit (5 + i) = false := testBit_hi (k := 5) (by norm_num; omega) (by omega)
  by_cases h : i < 5
  · have ha5 : (5 + i ≥ 5) := by omega
    have h10 : ¬(5 + i ≥ 10) := by omega
    have h12 : ¬(5 + i ≥ 12) := by omega
    have hsub : 5 + i - 5 = i := by omega
    simp [h, ha5, h10, h12, hsub, haa]
  · have hb0 : b.testBit i = false := testBit_hi (k := 5) (by norm_num; omega) (by omega)
    have hsub : 5 + i - 5 = i := by omega
    simp [h, hsub, haa, hb0]

theorem flags_shift10_and1 (a b c t : Nat) (ha : a < 32) (hb : b < 32) (hc : c < 2) :
    ((a ||| (b <<< 5) ||| (c <<< 10) ||| (t <<< 12)) >>> 10) &&& 1 = c := by
  apply Nat.eq_of_testBit_eq
  intro i
  rw [Nat.testBit_land, Nat.testBit_shiftRight, Nat.testBit_lor, Nat.testBit_lor,
    Nat.testBit_lor, Nat.testBit_shiftLeft, Nat.testBit_shiftLeft, Nat.testBit_shiftLeft,
    show (1 : Nat) = 2 ^ 1 - 1 by norm_num, Nat.testBit_two_pow_sub_one]
  have haa : a.testBit (10 + i) = false := testBit_hi (k := 5) (by norm_num; omega) (by omega)
  have hbb : b.testBit (10 + i - 5) = false := testBit_hi (k := 5) (by norm_num; omega) (by omega)
  by_cases h : i < 1
  · have h10 : (10 + i ≥ 10) := by omega
    have h12 : ¬(10 + i ≥ 12) := by omega
    have hsub : 10 + i - 10 = i := by omega
    simp [h, h10, h12, hsub, haa, hbb]
  · have hc0 : c.testBit i = false := testBit_hi (k := 1) (by norm_num; omega) (by omega)
    have hsub : 10 + i - 10 = i := by omega
    simp [h, hsub, haa, hbb, hc0]

theorem flags_shift12_and65535 (a b c t : Nat) (ha : a < 32) (hb : b < 32) (hc : c < 2)
    (ht : t < 2 ^ 16) :
    ((a ||| (b <<< 5) ||| (c <<< 10) ||| (t <<< 12)) >>> 12) &&& 65535 = t := by
  apply Nat.eq_of_testBit_eq
  intro i
  rw [Nat.testBit_land, Nat.testBit_shiftRight, Nat.testBit_lor, Nat.testBit_lor,
    Nat.testBit_lor, Nat.testBit_shiftLeft, Nat.testBit_shiftLeft, Nat.testBit_shiftLeft,
    show (65535 : Nat) = 2 ^ 16 - 1 by norm_num, Nat.testBit_two_pow_sub_one]
  have haa : a.testBit (12 + i) = false := testBit_hi (k := 5) (by norm_num; omega) (by omega)
  have hbb : b.testBit (12 + i - 5) = false := testBit_hi (k := 5) (by norm_num; omega) (by omega)
  have hcc : c.testBit (12 + i - 10) = false := testBit_hi (k := 1) (by norm_num; omega) (by omega)
  have hsub : 12 + i - 12 = i := by omega
  by_cases h : i < 16
  · simp [h, hsub, haa, hbb, hcc]
  · have ht0 : t.testBit i = false := testBit_hi (k := 16) (by norm_num; omega) (by omega)
    simp [h, hsub, haa, hbb, hcc, ht0]

theorem sumVersion_cases (raw : AdcData) : sumVersion raw = 3 ∨ sumVersion raw = 4 := by
  simp only [sumVersion]
  split
  · exact Or.inr rfl
  · split
    · exact Or.inr rfl
    · exact Or.inl rfl

theorem sumVersion_of_large (raw : AdcData) (hp : raw.num_pixels ≥ 32768)
    (hz : sumZsm0 raw ≥ 2) : sumVersion raw = 4 := by
  have hz2 : raw.zero_sup_mode ≥ 2 := le_trans hz (Nat.and_le_left)
  simp only [sumVersion]
  split
  · rfl
  · split
    · rfl
    · rename_i h1 h2
      exact absurd ⟨by omega, hz2⟩ h2

theorem sumZsm0_le (raw : AdcData) : sumZsm0 raw ≤ 31 := Nat.and_le_right

theorem sumDrm1_le (raw : AdcData) : sumDrm1 raw ≤ 31 := by
  unfold sumDrm1 sumDrm0
  split
  · omega
  · exact Nat.and_le_right

theorem sumDrm2_le (raw : AdcData) : sumDrm2 raw ≤ 31 := by
  unfold sumDrm2
  split
  · omega
  · exact sumDrm1_le raw

theorem selectZeroSup_le (a b : Nat) : selectZeroSup a b ≤ 2 := by
  unfold selectZeroSup
  split
  · omega
  · split <;> omega

theorem sumZsm3_le (raw : AdcData) : sumZsm3 raw ≤ 31 := by
  unfold sumZsm3 sumZsm2 sumZsm1
  have h1 := sumZsm0_le raw
  have h2 := selectZeroSup_le (derivedAdcList raw).length raw.num_pixels
  split <;> (try split) <;> (try split) <;> omega

theorem wSumPayload_some_bounds {raw : AdcData} {v z d : Nat} {o hf s : Int}
    {pay : List Tok} (h : wSumPayload raw v z d o hf s = some pay) : z ≤ 2 ∧ d ≤ 2 := by
  rcases z with _ | _ | _ | z <;> rcases d with _ | _ | _ | d <;>
    simp [wSumPayload] at h ⊢ <;> omega

theorem write_sums_ok_inv {raw : AdcData} {rec : Record}
    (h : write_hess_teladc_sums raw = WResult.ok rec) :
    rec.rtype = IO_TYPE_HESS_TELADCSUM ∧ rec.version = sumVersion raw ∧
      rec.ident = sumFlags raw ∧ sumZsm3 raw ≤ 2 ∧ sumDrm2 raw ≤ 2 := by
  unfold write_hess_teladc_sums at h
  split at h
  · exact absurd h (by simp)
  · split at h
    · exact absurd h (by simp)
    · rcases hp : wSumPayload (sumRawW raw) (sumVersion raw) (sumZsm3 raw) (sumDrm2 raw)
          (offsetHg8W raw) (cdiv (scaleHg8W raw) 2) (scaleHg8W raw) with _ | pay
      · rw [hp] at h
        exact absurd h (by simp)
      · rw [hp] at h
        simp only [WResult.ok.injEq] at h
        obtain ⟨hb1, hb2⟩ := wSumPayload_some_bounds hp
        refine ⟨?_, ?_, ?_, hb1, hb2⟩ <;> rw [← h]

/-- Mode bits of the identifier of every record the sum writer emits. -/
theorem sumFlags_and31 (raw : AdcData) : sumFlags raw &&& 31 = sumZsm3 raw := by
  have hv : ¬(sumVersion raw < 2) := by
    rcases sumVersion_cases raw with h | h <;> omega
  unfold sumFlags
  rw [if_neg hv]
  exact flags_and31 _ _ _ _ (by have := sumZsm3_le raw; omega)

theorem sumZsm1_of_zsm0_ge2 (raw : AdcData) (hz : sumZsm0 raw ≥ 2) :
    sumZsm1 raw = sumZsm0 raw := by
  unfold sumZsm1
  split
  · rename_i hcon
    have h4 := sumVersion_of_large raw hcon.1 hz
    omega
  · rfl

/-- C8 (counterexample to the claim as stated): with zero_sup_mode 2 and no
list known, all 16 of 16 pixels significant, the derived-list density is
above the plain-mode threshold 17n/16 > N, yet the writer keeps list mode:
the header mode bits of the emitted record are 2, not 0 — the density
self-selection runs only for zero_sup_mode 3. -/
theorem C8_derive_counterexample :
    cx8.zero_sup_mode = 2 ∧ cx8.list_known = 0 ∧
      17 * 16 / 16 > cx8.num_pixels ∧
      wModeBits (write_hess_teladc_sums cx8) = some 2 := by
  refine ⟨rfl, rfl, by decide, ?_⟩
  rfl

/-- C8 (amended): when write_hess_teladc_sums emits a record, the
zero-suppression mode bits of its identifier are always one of 0, 1 or 2
(mode 3 never reaches the wire); when the caller requested mode 3, the
emitted mode is self-selected from the derived-list density (plain mode when
17n/16 exceeds the pixel count, otherwise bitmap mode when 15n exceeds the
pixel count, otherwise list mode); and when the caller requested mode 2 with
list_known = 0, the list is derived but the emitted mode stays 2 — the
density self-selection does not run in that case. -/
theorem C8_mode_selection (raw : AdcData) (rec : Record)
    (h : write_hess_teladc_sums raw = WResult.ok rec) :
    rec.ident &&& 31 ≤ 2 ∧
    (sumZsm0 raw = 3 →
        rec.ident &&& 31 = selectZeroSup (derivedAdcList raw).length raw.num_pixels) ∧
    (sumZsm0 raw = 2 ∧ raw.list_known = 0 → rec.ident &&& 31 = 2) := by
  obtain ⟨-, -, hid, hz3, -⟩ := write_sums_ok_inv h
  rw [hid, sumFlags_and31]
  refine ⟨hz3, ?_, ?_⟩
  · intro h3
    have h1 : sumZsm1 raw = 3 := by
      rw [sumZsm1_of_zsm0_ge2 raw (by omega)]
      exact h3
    have hsel := selectZeroSup_le (derivedAdcList raw).length raw.num_pixels
    have h2 : sumZsm2 raw = selectZeroSup (derivedAdcList raw).length raw.num_pixels := by
      unfold sumZsm2
      rw [h1]
      simp
    unfold sumZsm3
    rw [h2, if_neg (by omega)]
  · rintro ⟨h2, hlk⟩
    have h1 : sumZsm1 raw = 2 := by
      rw [sumZsm1_of_zsm0_ge2 raw (by omega)]
      exact h2
    have h2' : sumZsm2 raw = 2 := by
      unfold sumZsm2
      rw [h1]
      simp
    unfold sumZsm3
    rw [h2']
    simp

/-- Witness for C8 at cx8 (mode 2 requested with no list known): the record
is emitted with mode bits 2. -/
theorem C8_mode_selection_witness :
    ∃ rec, write_hess_teladc_sums cx8 = WResult.ok rec ∧ rec.ident &&& 31 = 2 := by
  have hok : isOk (write_hess_teladc_sums cx8) = true := by rfl
  rcases hw : write_hess_teladc_sums cx8 with rc | _ | _ | rec
  · rw [hw] at hok; simp [isOk] at hok
  · rw [hw] at hok; simp [isOk] at hok
  · rw [hw] at hok; simp [isOk] at hok
  · exact ⟨rec, rfl, (C8_mode_selection cx8 rec hw).2.2 ⟨rfl, rfl⟩⟩

theorem sumPreScounts_snd (ver drm : Nat) (raw : AdcData) (s : List Tok) :
    (sumPreScounts ver drm raw s).map Prod.snd = sumPreSkip ver drm s := by
  unfold sumPreSkip sumPreScounts
  split
  · rcases h1 : get_scount32 s with _ | ⟨thr, s1⟩
    · simp [h1]
    · rcases h2 : get_scount32 s1 with _ | ⟨off, s2⟩
      · simp [h1, h2]
      · rcases h3 : get_scount32 s2 with _ | ⟨scl, s3⟩
        · simp [h1, h2, h3]
        · simp [h1, h2, h3]
  · simp

theorem sumPreScounts_fields {ver drm : Nat} {raw r' : AdcData} {s s' : List Tok}
    (h : sumPreScounts ver drm raw s = some (r', s')) :
    r'.known = raw.known ∧ r'.num_pixels = raw.num_pixels ∧
      r'.zero_sup_mode = raw.zero_sup_mode ∧ r'.data_red_mode = raw.data_red_mode := by
  unfold sumPreScounts at h
  split at h
  · rcases h1 : get_scount32 s with _ | ⟨thr, s1⟩ <;> simp only [h1] at h
    · exact absurd h (by simp)
    · rcases h2 : get_scount32 s1 with _ | ⟨off, s2⟩ <;> simp only [h2] at h
      · exact absurd h (by simp)
      · rcases h3 : get_scount32 s2 with _ | ⟨scl, s3⟩ <;> simp only [h3] at h
        · exact absurd h (by simp)
        · simp only [Option.some.injEq, Prod.mk.injEq] at h
          rw [← h.1]
          exact ⟨rfl, rfl, rfl, rfl⟩
  · simp only [Option.some.injEq, Prod.mk.injEq] at h
    rw [← h.1]
    exact ⟨rfl, rfl, rfl, rfl⟩

/-- C6: a sum-mode record whose version exceeds 4, or whose declared pixel
count, gain count or mode values exceed the configured limits (num_pixels
above H_MAX_PIX, num_gains above H_MAX_GAINS, zero_sup_mode above 2,
data_red_mode above 2, or at least 32768 pixels combined with zero_sup_mode
above 1), makes read_hess_teladc_sums return the negative status -1 and leave
the destination with known = 0 and num_pixels = 0; consumption of the record
to its end is the get_item_end call on every such path, which in the
record-level embedding is the discarding of the unread body. -/
theorem C6_limit_errors (rec : Record) (raw0 : AdcData)
    (htype : rec.rtype = IO_TYPE_HESS_TELADCSUM) :
    (rec.version > 4 →
        ∃ y, read_hess_teladc_sums rec raw0 = some (-1, y) ∧ y.known = 0 ∧ y.num_pixels = 0) ∧
    (∀ s1 tel npix ngains s2,
        rec.version ≤ 4 →
        sumPreSkip rec.version ((rec.ident >>> 5) &&& 31) rec.body = some s1 →
        sumHdr rec.version rec.ident s1 = some ((tel, npix, ngains), s2) →
        (npix > H_MAX_PIX ∨ ngains > H_MAX_GAINS ∨ rec.ident &&& 31 > 2 ∨
          (rec.ident >>> 5) &&& 31 > 2 ∨ (npix ≥ 32768 ∧ rec.ident &&& 31 > 1)) →
        ∃ y, read_hess_teladc_sums rec raw0 = some (-1, y) ∧ y.known = 0 ∧ y.num_pixels = 0) := by
  constructor
  · intro hver
    refine ⟨{ raw0 with known := 0, num_pixels := 0 }, ?_, rfl, rfl⟩
    unfold read_hess_teladc_sums
    rw [if_neg (by simp [htype]), if_pos hver]
  · intro s1 tel npix ngains s2 hver hpre hhdr hbad
    have hv4 : ¬ rec.version > 4 := by omega
    obtain ⟨rawB, hB⟩ : ∃ rawB,
        sumPreScounts rec.version ((rec.ident >>> 5) &&& 31) (sumRawA rec raw0) rec.body
          = some (rawB, s1) := by
      have hm := sumPreScounts_snd rec.version ((rec.ident >>> 5) &&& 31)
        (sumRawA rec raw0) rec.body
      rw [hpre] at hm
      rcases hx : sumPreScounts rec.version ((rec.ident >>> 5) &&& 31)
          (sumRawA rec raw0) rec.body with _ | ⟨rawB, sB⟩
      · rw [hx] at hm
        exact absurd hm (by simp)
      · rw [hx] at hm
        simp only [Option.map_some', Option.some.injEq] at hm
        exact ⟨rawB, by rw [hm]⟩
    obtain ⟨hk, hnp, hzs, hdr⟩ := sumPreScounts_fields hB
    have hk0 : rawB.known = 0 := hk
    have hcond : npix > H_MAX_PIX ∨ ngains > H_MAX_GAINS ∨
        (npix ≥ 32768 ∧ rec.ident &&& 31 > 1) ∨ rec.ident &&& 31 > 2 ∨
        (rec.ident >>> 5) &&& 31 > 2 := by tauto
    have hafter : rSumAfterHeader rec.version (rec.ident &&& 31) ((rec.ident >>> 5) &&& 31)
        npix ngains { rawB with list_known := (rec.ident >>> 10) &&& 1 } s2
        = some (-1, { rawB with
                      list_known := (rec.ident >>> 10) &&& 1
                      num_pixels := 0
                      num_gains := ngains
                      num_samples := 0 }) := by
      simp only [rSumAfterHeader, if_pos hcond]
    refine ⟨{ rawB with
              list_known := (rec.ident >>> 10) &&& 1
              num_pixels := 0
              num_gains := ngains
              num_samples := 0
              tel_id := tel }, ?_, hk0, rfl⟩
    unfold read_hess_teladc_sums
    rw [if_neg (by simp [htype]), if_neg hv4]
    simp only [hB, readSumsAfterPre, hhdr, hafter]

/-- Witness for C6: a sum record declaring 961 pixels (one above H_MAX_PIX)
is rejected with status -1 and a cleared destination. -/
theorem C6_limit_errors_witness :
    ∃ y, read_hess_teladc_sums ⟨IO_TYPE_HESS_TELADCSUM, 3, 0, [Tok.i32 961, Tok.i16 2]⟩ zeroAdc
        = some (-1, y) ∧ y.known = 0 ∧ y.num_pixels = 0 :=
  (C6_limit_errors ⟨IO_TYPE_HESS_TELADCSUM, 3, 0, [Tok.i32 961, Tok.i16 2]⟩ zeroAdc rfl).2
    [Tok.i32 961, Tok.i16 2] 0 961 2 [] (by decide) rfl rfl (by decide)

/-!  Scalar-field preservation through the sum-mode payload readers: the
distribution loops only touch the per-pixel arrays, never the pixel and gain
counts. -/

theorem applyZ0D1_scalars (n : Nat) : ∀ (st : AdcData) (k cf : Nat) (lg hg : List Nat),
    (applyZ0D1 st k n cf lg hg).num_pixels = st.num_pixels ∧
      (applyZ0D1 st k n cf lg hg).num_gains = st.num_gains := by
  induction n with
  | zero => intro st k cf lg hg; exact ⟨rfl, rfl⟩
  | succ n ih =>
    intro st k cf lg hg
    simp only [applyZ0D1]
    constructor
    · rw [(ih _ _ _ _ _).1]
      split <;> rfl
    · rw [(ih _ _ _ _ _).2]
      split <;> rfl

theorem applyZ0D2_scalars (scale off n : Nat) :
    ∀ (st : AdcData) (k cf bf : Nat) (lg hg h8 : List Nat),
    (applyZ0D2 scale off st k n cf bf lg hg h8).num_pixels = st.num_pixels ∧
      (applyZ0D2 scale off st k n cf bf lg hg h8).num_gains = st.num_gains := by
  induction n with
  | zero => intro st k cf bf lg hg h8; exact ⟨rfl, rfl⟩
  | succ n ih =>
    intro st k cf bf lg hg h8
    simp only [applyZ0D2]
    constructor
    · split
      · rw [(ih _ _ _ _ _ _ _).1]
      · split
        · rw [(ih _ _ _ _ _ _ _).1]
        · rw [(ih _ _ _ _ _ _ _).1]
    · split
      · rw [(ih _ _ _ _ _ _ _).2]
      · split
        · rw [(ih _ _ _ _ _ _ _).2]
        · rw [(ih _ _ _ _ _ _ _).2]

theorem applyZ1_scalars (drm scale off n : Nat) :
    ∀ (st : AdcData) (k zb cf bf : Nat) (lg hg h8 : List Nat),
    (applyZ1 drm scale off st k n zb cf bf lg hg h8).num_pixels = st.num_pixels ∧
      (applyZ1 drm scale off st k n zb cf bf lg hg h8).num_gains = st.num_gains := by
  induction n with
  | zero => intro st k zb cf bf lg hg h8; exact ⟨rfl, rfl⟩
  | succ n ih =>
    intro st k zb cf bf lg hg h8
    simp only [applyZ1]
    constructor
    · split
      · split
        · rw [(ih _ _ _ _ _ _ _ _).1]
        · split
          · rw [(ih _ _ _ _ _ _ _ _).1]
          · rw [(ih _ _ _ _ _ _ _ _).1]
      · rw [(ih _ _ _ _ _ _ _ _).1]
    · split
      · split
        · rw [(ih _ _ _ _ _ _ _ _).2]
        · split
          · rw [(ih _ _ _ _ _ _ _ _).2]
          · rw [(ih _ _ _ _ _ _ _ _).2]
      · rw [(ih _ _ _ _ _ _ _ _).2]

theorem applyZ2_scalars (gains scale off : Nat) :
    ∀ (es : List (Nat × Bool × Bool)) (st : AdcData) (lg hg h8 : List Nat),
    (applyZ2 gains scale off st es lg hg h8).num_pixels = st.num_pixels ∧
      (applyZ2 gains scale off st es lg hg h8).num_gains = st.num_gains := by
  intro es
  induction es with
  | nil => intro st lg hg h8; exact ⟨rfl, rfl⟩
  | cons e es ih =>
    intro st lg hg h8
    obtain ⟨k, wlg, rdw⟩ := e
    simp only [applyZ2]
    constructor
    · rw [(ih _ _ _ _).1]
      split
      · split <;> rfl
      · split
        · split <;> rfl
        · split <;> rfl
    · rw [(ih _ _ _ _).2]
      split
      · split <;> rfl
      · split
        · split <;> rfl
        · split <;> rfl

theorem rSumZ0D0Go_scalars (ver npix : Nat) :
    ∀ (is : List Nat) (st : AdcData) (s : List Tok) (r : AdcData × List Tok),
    rSumZ0D0Go ver npix is st s = some r →
      r.1.num_pixels = st.num_pixels ∧ r.1.num_gains = st.num_gains := by
  intro is
  induction is with
  | nil =>
    intro st s r h
    simp only [rSumZ0D0Go, Option.some.injEq] at h
    rw [← h]
    exact ⟨rfl, rfl⟩
  | cons i is ih =>
    intro st s r h
    simp only [rSumZ0D0Go] at h
    rcases hv : rSumVec ver npix s with _ | ⟨vs, s1⟩ <;> simp only [hv] at h
    · exact absurd h (by simp)
    · have hc := ih _ _ _ h
      exact ⟨hc.1, hc.2⟩

theorem rSumZ0D1Go_scalars (ver gains : Nat) :
    ∀ (gs : List (Nat × Nat)) (st : AdcData) (s : List Tok) (r : AdcData × List Tok),
    rSumZ0D1Go ver gains gs st s = some r →
      r.1.num_pixels = st.num_pixels ∧ r.1.num_gains = st.num_gains := by
  intro gs
  induction gs with
  | nil =>
    intro st s r h
    simp only [rSumZ0D1Go, Option.some.injEq] at h
    rw [← h]
    exact ⟨rfl, rfl⟩
  | cons g gs ih =>
    obtain ⟨k0, n⟩ := g
    intro st s r h
    simp only [rSumZ0D1Go] at h
    split at h
    · exact absurd h (by simp)
    · split at h
      · exact absurd h (by simp)
      · split at h
        · exact absurd h (by simp)
        · have hc := ih _ _ _ h
          exact ⟨hc.1.trans (applyZ0D1_scalars _ _ _ _ _ _).1,
                 hc.2.trans (applyZ0D1_scalars _ _ _ _ _ _).2⟩

theorem rSumZ0D2Go_scalars (ver gains scale off : Nat) :
    ∀ (gs : List (Nat × Nat)) (st : AdcData) (s : List Tok) (r : AdcData × List Tok),
    rSumZ0D2Go ver gains scale off gs st s = some r →
      r.1.num_pixels = st.num_pixels ∧ r.1.num_gains = st.num_gains := by
  intro gs
  induction gs with
  | nil =>
    intro st s r h
    simp only [rSumZ0D2Go, Option.some.injEq] at h
    rw [← h]
    exact ⟨rfl, rfl⟩
  | cons g gs ih =>
    obtain ⟨k0, n⟩ := g
    intro st s r h
    simp only [rSumZ0D2Go] at h
    split at h
    · exact absurd h (by simp)
    · split at h
      · exact absurd h (by simp)
      · split at h
        · exact absurd h (by simp)
        · split at h
          · exact absurd h (by simp)
          · split at h
            · exact absurd h (by simp)
            · have hc := ih _ _ _ h
              exact ⟨hc.1.trans (applyZ0D2_scalars _ _ _ _ _ _ _ _ _ _).1,
                     hc.2.trans (applyZ0D2_scalars _ _ _ _ _ _ _ _ _ _).2⟩

theorem rSumZ1Go_scalars (ver gains drm scale off : Nat) :
    ∀ (gs : List (Nat × Nat)) (st : AdcData) (s : List Tok) (r : AdcData × List Tok),
    rSumZ1Go ver gains drm scale off gs st s = some r →
      r.1.num_pixels = st.num_pixels ∧ r.1.num_gains = st.num_gains := by
  intro gs
  induction gs with
  | nil =>
    intro st s r h
    simp only [rSumZ1Go, Option.some.injEq] at h
    rw [← h]
    exact ⟨rfl, rfl⟩
  | cons g gs ih =>
    obtain ⟨k0, n⟩ := g
    intro st s r h
    simp only [rSumZ1Go] at h
    split at h
    · exact absurd h (by simp)
    · split at h
      · exact ih _ _ _ h
      · split at h
        · exact absurd h (by simp)
        · split at h
          · exact absurd h (by simp)
          · split at h
            · exact ih _ _ _ h
            · split at h
              · exact absurd h (by simp)
              · split at h
                · exact absurd h (by simp)
                · split at h
                  · exact absurd h (by simp)
                  · have hc := ih _ _ _ h
                    exact ⟨hc.1.trans (applyZ1_scalars _ _ _ _ _ _ _ _ _ _ _ _).1,
                           hc.2.trans (applyZ1_scalars _ _ _ _ _ _ _ _ _ _ _ _).2⟩

theorem rSumZ2_scalars (ver gains scale off : Nat) (st : AdcData) (s : List Tok)
    (r : AdcData × List Tok) (h : rSumZ2 ver gains scale off st s = some r) :
    r.1.num_pixels = st.num_pixels ∧ r.1.num_gains = st.num_gains := by
  simp only [rSumZ2] at h
  split at h
  · exact absurd h (by simp)
  · split at h
    · exact absurd h (by simp)
    · split at h
      · exact absurd h (by simp)
      · split at h
        · exact absurd h (by simp)
        · simp only [Option.some.injEq] at h
          cases h
          exact ⟨(applyZ2_scalars _ _ _ _ _ _ _ _).1, (applyZ2_scalars _ _ _ _ _ _ _ _).2⟩

/-- On a successful (non-negative status) run past the header, the pixel and
gain counts of the result are the header-decoded counts and the known flag is
set (io_hess.c:3893-3899, 4366-4369). -/
theorem rSumAfterHeader_np {ver zsm drm npix ngains : Nat} {raw : AdcData} {s : List Tok}
    {rc : Int} {y : AdcData} (h : rSumAfterHeader ver zsm drm npix ngains raw s = some (rc, y))
    (hrc : 0 ≤ rc) : y.num_pixels = npix ∧ y.num_gains = ngains ∧ y.known = 1 := by
  simp only [rSumAfterHeader] at h
  split at h
  · simp only [Option.some.injEq, Prod.mk.injEq] at h
    rw [← h.1] at hrc
    exact absurd hrc (by norm_num)
  · split at h
    · exact absurd h (by simp)
    · rename_i osc raw2 s2 heq
      split at h
      · exact absurd h (by simp)
      · rename_i yr s' heq2
        simp only [Option.some.injEq, Prod.mk.injEq] at h
        obtain ⟨h0, hy⟩ := h
        have hr2 : raw2.num_pixels = npix ∧ raw2.num_gains = ngains := by
          split at heq
          · split at heq
            · exact absurd heq (by simp)
            · split at heq
              · exact absurd heq (by simp)
              · simp only [Option.some.injEq, Prod.mk.injEq] at heq
                rw [← heq.2.1]
                exact ⟨rfl, rfl⟩
          · simp only [Option.some.injEq, Prod.mk.injEq] at heq
            rw [← heq.2.1]
            exact ⟨rfl, rfl⟩
        have hyr : yr.num_pixels = raw2.num_pixels ∧ yr.num_gains = raw2.num_gains := by
          split at heq2
          · have hgo := rSumZ0D0Go_scalars _ _ _ _ _ _ heq2
            exact ⟨hgo.1, hgo.2⟩
          · have hgo := rSumZ0D1Go_scalars _ _ _ _ _ _ heq2
            exact ⟨hgo.1, hgo.2⟩
          · have hgo := rSumZ0D2Go_scalars _ _ _ _ _ _ _ _ heq2
            exact ⟨hgo.1, hgo.2⟩
          · have hgo := rSumZ1Go_scalars _ _ _ _ _ _ _ _ _ heq2
            exact ⟨hgo.1, hgo.2⟩
          · have hgo := rSumZ2_scalars _ _ _ _ _ _ _ heq2
            exact ⟨hgo.1, hgo.2⟩
          · exact absurd heq2 (by simp)
        rw [← hy]
        exact ⟨hyr.1.trans hr2.1, hyr.2.trans hr2.2, rfl⟩

/-- Identifier bits below 12 are determined by the value masked to 12 bits:
generic extraction equality. -/
theorem mask12_shift {a b : Nat} (h : a &&& 4095 = b &&& 4095) (k w : Nat)
    (hkw : k + w ≤ 12) : (a >>> k) &&& (2 ^ w - 1) = (b >>> k) &&& (2 ^ w - 1) := by
  apply Nat.eq_of_testBit_eq
  intro i
  rw [Nat.testBit_land, Nat.testBit_land, Nat.testBit_shiftRight, Nat.testBit_shiftRight,
    Nat.testBit_two_pow_sub_one]
  by_cases hi : i < w
  · have ht := congrArg (fun x => x.testBit (k + i)) h
    simp only [Nat.testBit_land] at ht
    rw [show (4095 : Nat) = 2 ^ 12 - 1 by norm_num, Nat.testBit_two_pow_sub_one] at ht
    have h12 : k + i < 12 := by omega
    rw [decide_eq_true h12, Bool.and_true, Bool.and_true] at ht
    rw [ht]
  · simp [hi]

theorem mask12_and31 {a b : Nat} (h : a &&& 4095 = b &&& 4095) : a &&& 31 = b &&& 31 := by
  have h5 := mask12_shift h 0 5 (by norm_num)
  rw [Nat.shiftRight_zero, Nat.shiftRight_zero,
    show (2 : Nat) ^ 5 - 1 = 31 by norm_num] at h5
  exact h5

theorem mask12_shift5 {a b : Nat} (h : a &&& 4095 = b &&& 4095) :
    (a >>> 5) &&& 31 = (b >>> 5) &&& 31 := by
  have h5 := mask12_shift h 5 5 (by norm_num)
  rw [show (2 : Nat) ^ 5 - 1 = 31 by norm_num] at h5
  exact h5

theorem mask12_shift10 {a b : Nat} (h : a &&& 4095 = b &&& 4095) :
    (a >>> 10) &&& 1 = (b >>> 10) &&& 1 := by
  have h1 := mask12_shift h 10 1 (by norm_num)
  rw [show (2 : Nat) ^ 1 - 1 = 1 by norm_num] at h1
  exact h1

/-- From version 2 on, the header decoding reads pixel and gain counts from
the record body; the identifier only contributes the telescope id. -/
theorem sumHdr_ge2 (ver flags : Nat) (s : List Tok) (h : 2 ≤ ver) :
    sumHdr ver flags s =
      match get_long s with
      | none => none
      | some (np, s2) =>
        match get_short s2 with
        | none => none
        | some (ng, s3) => some (((flags >>> 12) &&& 65535, np.toNat, ng.toNat), s3) := by
  unfold sumHdr
  rw [if_neg (by omega), if_neg (by omega)]

theorem sumPreSkip_some {ver drm : Nat} {s s1 : List Tok} (raw : AdcData)
    (h : sumPreSkip ver drm s = some s1) :
    ∃ rawB, sumPreScounts ver drm raw s = some (rawB, s1) := by
  have hm := sumPreScounts_snd ver drm raw s
  rw [h] at hm
  rcases hx : sumPreScounts ver drm raw s with _ | ⟨rawB, sB⟩ <;> rw [hx] at hm
  · exact absurd hm (by simp)
  · simp only [Option.map_some', Option.some.injEq] at hm
    exact ⟨rawB, by rw [hm]⟩

/-- With 40000 pixels the writers version choice is 4 exactly when a
list-type zero suppression was requested (io_hess.c:3160-3168). -/
theorem c4_version_part (raw : AdcData) (rec : Record)
    (hnp : raw.num_pixels = 40000) (hw : write_hess_teladc_sums raw = WResult.ok rec) :
    rec.version = 4 ↔ 2 ≤ raw.zero_sup_mode := by
  obtain ⟨ht, hver, hident, hz3, hd2⟩ := write_sums_ok_inv hw
  rw [hver]
  simp only [sumVersion]
  constructor
  · intro h4
    by_contra hzlt
    have hc2 : ¬(raw.num_pixels > 8191 ∧ raw.zero_sup_mode ≥ 2 ∧ raw.data_red_mode ≠ 0) :=
      fun hc => hzlt hc.2.1
    have hc1 : ¬(raw.num_pixels > 32767 ∧ raw.zero_sup_mode ≥ 2) := fun hc => hzlt hc.2
    rw [if_neg hc2, if_neg hc1] at h4
    exact absurd h4 (by norm_num)
  · intro hz
    split
    · rfl
    · rw [if_pos ⟨by omega, hz⟩]

/-- Identifier bits 12 and up influence neither the decode status nor the
decoded pixel count of a version-2..4 sum record. -/
theorem c4_ident_part (rec : Record) (htype : rec.rtype = IO_TYPE_HESS_TELADCSUM)
    (hv2 : 2 ≤ rec.version) (hv4 : ¬ rec.version > 4)
    (ident2 : Nat) (raw0 : AdcData) (hid : ident2 &&& 4095 = rec.ident &&& 4095) :
    (read_hess_teladc_sums ⟨rec.rtype, rec.version, ident2, rec.body⟩ raw0).map
        (fun p => (p.1, p.2.num_pixels)) =
      (read_hess_teladc_sums rec raw0).map (fun p => (p.1, p.2.num_pixels)) := by
  have e1 : ident2 &&& 31 = rec.ident &&& 31 := mask12_and31 hid
  have e2 : (ident2 >>> 5) &&& 31 = (rec.ident >>> 5) &&& 31 := mask12_shift5 hid
  have e3 : (ident2 >>> 10) &&& 1 = (rec.ident >>> 10) &&& 1 := mask12_shift10 hid
  have hA : sumRawA ⟨rec.rtype, rec.version, ident2, rec.body⟩ raw0 = sumRawA rec raw0 := by
    simp only [sumRawA]
    rw [e1, e2]
  have hne : ¬(rec.rtype ≠ IO_TYPE_HESS_TELADCSUM) := by simp [htype]
  simp only [read_hess_teladc_sums]
  rw [if_neg hne, if_neg hv4, if_neg hne, if_neg hv4, e2, hA]
  rcases hP : sumPreScounts rec.version ((rec.ident >>> 5) &&& 31) (sumRawA rec raw0) rec.body
    with _ | ⟨rawB, s1⟩
  · simp only [hP]
  · simp only [hP, readSumsAfterPre]
    rw [e1, e2, e3]
    rw [sumHdr_ge2 rec.version ident2 s1 hv2, sumHdr_ge2 rec.version rec.ident s1 hv2]
    rcases hL : get_long s1 with _ | ⟨np, sh⟩
    · simp only [hL]
    · simp only [hL]
      rcases hS : get_short sh with _ | ⟨ng, s3⟩
      · simp only [hS]
      · simp only [hS]
        rcases hAf : rSumAfterHeader rec.version (rec.ident &&& 31) ((rec.ident >>> 5) &&& 31)
            np.toNat ng.toNat { rawB with list_known := (rec.ident >>> 10) &&& 1 } s3
          with _ | ⟨rc, y⟩
        · simp only [hAf]
        · simp only [hAf, Option.map_some']

/-- A successful decode of a version-2..4 sum record returns the explicit
32-bit pixel-count field of the record body as num_pixels. -/
theorem c4_body_part (rec : Record) (htype : rec.rtype = IO_TYPE_HESS_TELADCSUM)
    (hv2 : 2 ≤ rec.version) (hv4 : ¬ rec.version > 4)
    (raw0 : AdcData) (s1 : List Tok) (np : Int) (sh : List Tok) (rc : Int) (y : AdcData)
    (hpre : sumPreSkip rec.version ((rec.ident >>> 5) &&& 31) rec.body = some s1)
    (hlong : get_long s1 = some (np, sh))
    (hread : read_hess_teladc_sums rec raw0 = some (rc, y)) (hrc : 0 ≤ rc) :
    y.num_pixels = np.toNat := by
  obtain ⟨rawB, hB⟩ := sumPreSkip_some (sumRawA rec raw0) hpre
  unfold read_hess_teladc_sums at hread
  rw [if_neg (by simp [htype]), if_neg hv4] at hread
  simp only [hB, readSumsAfterPre] at hread
  rw [sumHdr_ge2 rec.version rec.ident s1 hv2] at hread
  simp only [hlong] at hread
  rcases hS : get_short sh with _ | ⟨ng, s3⟩ <;> simp only [hS] at hread
  · exact absurd hread (by simp)
  · rcases hAf : rSumAfterHeader rec.version (rec.ident &&& 31) ((rec.ident >>> 5) &&& 31)
        np.toNat ng.toNat { rawB with list_known := (rec.ident >>> 10) &&& 1 } s3
      with _ | ⟨rc2, y2⟩ <;> simp only [hAf] at hread
    · exact absurd hread (by simp)
    · simp only [Option.some.injEq, Prod.mk.injEq] at hread
      obtain ⟨hrc2, hy⟩ := hread
      rw [← hrc2] at hrc
      have hnp2 := (rSumAfterHeader_np hAf hrc).1
      rw [← hy]
      exact hnp2

/-- C4: for raw data with 40000 pixels that the sum-mode writer accepts, the
emitted record has version 4 exactly when a list-type zero suppression
(mode at least 2) was requested, version 3 otherwise; and for the version
emitted here (always at least 2) the decoded pixel count comes from the
explicit 32-bit field of the record body and not from the bit-packed
identifier: identifier bits 12 and up change neither the status nor the
decoded pixel count, and every decode with non-negative status returns
exactly the body field as num_pixels. -/
theorem C4_explicit_pixel_count (raw : AdcData) (rec : Record)
    (hnp : raw.num_pixels = 40000) (hw : write_hess_teladc_sums raw = WResult.ok rec) :
    (rec.version = 4 ↔ 2 ≤ raw.zero_sup_mode) ∧
    (∀ (ident2 : Nat) (raw0 : AdcData), ident2 &&& 4095 = rec.ident &&& 4095 →
        (read_hess_teladc_sums ⟨rec.rtype, rec.version, ident2, rec.body⟩ raw0).map
            (fun p => (p.1, p.2.num_pixels)) =
          (read_hess_teladc_sums rec raw0).map (fun p => (p.1, p.2.num_pixels))) ∧
    (∀ (raw0 : AdcData) (s1 : List Tok) (np : Int) (sh : List Tok) (rc : Int) (y : AdcData),
        sumPreSkip rec.version ((rec.ident >>> 5) &&& 31) rec.body = some s1 →
        get_long s1 = some (np, sh) →
        read_hess_teladc_sums rec raw0 = some (rc, y) → 0 ≤ rc →
        y.num_pixels = np.toNat) := by
  obtain ⟨ht, hver, hident, hz3, hd2⟩ := write_sums_ok_inv hw
  have hv34 := sumVersion_cases raw
  have hv2 : 2 ≤ rec.version := by rw [hver]; rcases hv34 with h | h <;> omega
  have hv4 : ¬ rec.version > 4 := by rw [hver]; rcases hv34 with h | h <;> omega
  exact ⟨c4_version_part raw rec hnp hw,
    fun ident2 raw0 hid => c4_ident_part rec ht hv2 hv4 ident2 raw0 hid,
    fun raw0 s1 np sh rc y hpre hlong hread hrc =>
      c4_body_part rec ht hv2 hv4 raw0 s1 np sh rc y hpre hlong hread hrc⟩


/-!  Per-pixel effects of the zero-suppression-0 payload readers, for the
significance invariant of the mode-0 header. -/

theorem applyZ0D1_pres (n : Nat) : ∀ (st : AdcData) (k cf : Nat) (lg hg : List Nat) (p : Nat),
    p < k ∨ k + n ≤ p →
    (applyZ0D1 st k n cf lg hg).significant p = st.significant p ∧
      ∀ g, (applyZ0D1 st k n cf lg hg).adc_known g p = st.adc_known g p := by
  induction n with
  | zero => intro st k cf lg hg p hp; exact ⟨rfl, fun g => rfl⟩
  | succ n ih =>
    intro st k cf lg hg p hp
    have hpk : p ≠ k := by omega
    have hside : p < k + 1 ∨ (k + 1) + n ≤ p := by omega
    simp only [applyZ0D1]
    constructor
    · rw [(ih _ (k + 1) _ _ _ p hside).1]
      split <;> simp [fset, hpk]
    · intro g
      rw [(ih _ (k + 1) _ _ _ p hside).2 g]
      split <;> simp [fset2, hpk]

theorem applyZ0D1_set (n : Nat) : ∀ (st : AdcData) (k cf : Nat) (lg hg : List Nat) (p : Nat),
    k ≤ p → p < k + n →
    (applyZ0D1 st k n cf lg hg).significant p = 1 ∧
      (applyZ0D1 st k n cf lg hg).adc_known HI_GAIN p = 1 := by
  induction n with
  | zero => intro st k cf lg hg p h1 h2; omega
  | succ n ih =>
    intro st k cf lg hg p h1 h2
    simp only [applyZ0D1]
    by_cases hpk : p = k
    · have hside : p < k + 1 ∨ (k + 1) + n ≤ p := by omega
      constructor
      · rw [(applyZ0D1_pres n _ (k + 1) _ _ _ p hside).1]
        subst hpk
        split <;> simp [fset]
      · rw [(applyZ0D1_pres n _ (k + 1) _ _ _ p hside).2 HI_GAIN]
        subst hpk
        split <;> simp [fset2]
    · exact ih _ (k + 1) _ _ _ p (by omega) (by omega)

theorem applyZ0D2_pres (scale off n : Nat) :
    ∀ (st : AdcData) (k cf bf : Nat) (lg hg h8 : List Nat) (p : Nat),
    p < k ∨ k + n ≤ p →
    (applyZ0D2 scale off st k n cf bf lg hg h8).significant p = st.significant p ∧
      ∀ g, (applyZ0D2 scale off st k n cf bf lg hg h8).adc_known g p = st.adc_known g p := by
  induction n with
  | zero => intro st k cf bf lg hg h8 p hp; exact ⟨rfl, fun g => rfl⟩
  | succ n ih =>
    intro st k cf bf lg hg h8 p hp
    have hpk : p ≠ k := by omega
    have hside : p < k + 1 ∨ (k + 1) + n ≤ p := by omega
    simp only [applyZ0D2]
    constructor
    · split
      · rw [(ih _ (k + 1) _ _ _ _ _ p hside).1]
        simp [fset, hpk]
      · split
        · rw [(ih _ (k + 1) _ _ _ _ _ p hside).1]
          simp [fset, hpk]
        · rw [(ih _ (k + 1) _ _ _ _ _ p hside).1]
          simp [fset, hpk]
    · intro g
      split
      · rw [(ih _ (k + 1) _ _ _ _ _ p hside).2 g]
        simp [fset2, hpk]
      · split
        · rw [(ih _ (k + 1) _ _ _ _ _ p hside).2 g]
          simp [fset2, hpk]
        · rw [(ih _ (k + 1) _ _ _ _ _ p hside).2 g]
          simp [fset2, hpk]

theorem applyZ0D2_set (scale off n : Nat) :
    ∀ (st : AdcData) (k cf bf : Nat) (lg hg h8 : List Nat) (p : Nat),
    k ≤ p → p < k + n →
    (applyZ0D2 scale off st k n cf bf lg hg h8).significant p = 1 ∧
      (applyZ0D2 scale off st k n cf bf lg hg h8).adc_known HI_GAIN p = 1 := by
  induction n with
  | zero => intro st k cf bf lg hg h8 p h1 h2; omega
  | succ n ih =>
    intro st k cf bf lg hg h8 p h1 h2
    simp only [applyZ0D2]
    by_cases hpk : p = k
    · have hside : p < k + 1 ∨ (k + 1) + n ≤ p := by omega
      constructor
      · split
        · rw [(applyZ0D2_pres scale off n _ (k + 1) _ _ _ _ _ p hside).1]
          subst hpk
          simp [fset]
        · split
          · rw [(applyZ0D2_pres scale off n _ (k + 1) _ _ _ _ _ p hside).1]
            subst hpk
            simp [fset]
          · rw [(applyZ0D2_pres scale off n _ (k + 1) _ _ _ _ _ p hside).1]
            subst hpk
            simp [fset]
      · split
        · rw [(applyZ0D2_pres scale off n _ (k + 1) _ _ _ _ _ p hside).2 HI_GAIN]
          subst hpk
          simp [fset2]
        · split
          · rw [(applyZ0D2_pres scale off n _ (k + 1) _ _ _ _ _ p hside).2 HI_GAIN]
            subst hpk
            simp [fset2]
          · rw [(applyZ0D2_pres scale off n _ (k + 1) _ _ _ _ _ p hside).2 HI_GAIN]
            subst hpk
            simp [fset2]
    · constructor
      · split
        · exact (ih _ (k + 1) _ _ _ _ _ p (by omega) (by omega)).1
        · split
          · exact (ih _ (k + 1) _ _ _ _ _ p (by omega) (by omega)).1
          · exact (ih _ (k + 1) _ _ _ _ _ p (by omega) (by omega)).1
      · split
        · exact (ih _ (k + 1) _ _ _ _ _ p (by omega) (by omega)).2
        · split
          · exact (ih _ (k + 1) _ _ _ _ _ p (by omega) (by omega)).2
          · exact (ih _ (k + 1) _ _ _ _ _ p (by omega) (by omega)).2

theorem rSumZ0D0Go_arrays (ver npix : Nat) :
    ∀ (is : List Nat) (st : AdcData) (s : List Tok) (r : AdcData × List Tok),
    rSumZ0D0Go ver npix is st s = some r →
      r.1.significant = st.significant ∧ r.1.adc_known = st.adc_known := by
  intro is
  induction is with
  | nil =>
    intro st s r h
    simp only [rSumZ0D0Go, Option.some.injEq] at h
    rw [← h]
    exact ⟨rfl, rfl⟩
  | cons i is ih =>
    intro st s r h
    simp only [rSumZ0D0Go] at h
    rcases hv : rSumVec ver npix s with _ | ⟨vs, s1⟩ <;> simp only [hv] at h
    · exact absurd h (by simp)
    · have hc := ih _ _ _ h
      exact ⟨hc.1, hc.2⟩

theorem rSumZ0D1Go_pres (ver gains : Nat) :
    ∀ (gs : List (Nat × Nat)) (st : AdcData) (s : List Tok) (r : AdcData × List Tok),
    rSumZ0D1Go ver gains gs st s = some r →
    ∀ p, (∀ kn, kn ∈ gs → p < kn.1 ∨ kn.1 + kn.2 ≤ p) →
      r.1.significant p = st.significant p ∧ ∀ g, r.1.adc_known g p = st.adc_known g p := by
  intro gs
  induction gs with
  | nil =>
    intro st s r h p hout
    simp only [rSumZ0D1Go, Option.some.injEq] at h
    rw [← h]
    exact ⟨rfl, fun g => rfl⟩
  | cons g0 gs ih =>
    obtain ⟨k0, n⟩ := g0
    intro st s r h p hout
    simp only [rSumZ0D1Go] at h
    split at h
    · exact absurd h (by simp)
    · split at h
      · exact absurd h (by simp)
      · split at h
        · exact absurd h (by simp)
        · have hh2 : p < k0 ∨ k0 + n ≤ p := hout (k0, n) (List.mem_cons_self _ _)
          have htail : ∀ kn, kn ∈ gs → p < kn.1 ∨ kn.1 + kn.2 ≤ p :=
            fun kn hm => hout kn (List.mem_cons_of_mem _ hm)
          have hc := ih _ _ _ h p htail
          constructor
          · rw [hc.1]
            exact (applyZ0D1_pres n _ k0 _ _ _ p hh2).1
          · intro g
            rw [hc.2 g]
            exact (applyZ0D1_pres n _ k0 _ _ _ p hh2).2 g

theorem rSumZ0D1Go_set (ver gains : Nat) :
    ∀ (gs : List (Nat × Nat)) (st : AdcData) (s : List Tok) (r : AdcData × List Tok),
    rSumZ0D1Go ver gains gs st s = some r →
    ∀ p, (∃ kn, kn ∈ gs ∧ kn.1 ≤ p ∧ p < kn.1 + kn.2) →
      r.1.significant p = 1 ∧ r.1.adc_known HI_GAIN p = 1 := by
  intro gs
  induction gs with
  | nil =>
    intro st s r h p hex
    obtain ⟨kn, hm, _⟩ := hex
    exact absurd hm (List.not_mem_nil kn)
  | cons g0 gs ih =>
    obtain ⟨k0, n⟩ := g0
    intro st s r h p hex
    simp only [rSumZ0D1Go] at h
    split at h
    · exact absurd h (by simp)
    · split at h
      · exact absurd h (by simp)
      · split at h
        · exact absurd h (by simp)
        · obtain ⟨kn, hm, hin⟩ := hex
          rcases List.mem_cons.mp hm with he | ht
          · by_cases h2 : ∃ kn2, kn2 ∈ gs ∧ kn2.1 ≤ p ∧ p < kn2.1 + kn2.2
            · exact ih _ _ _ h p h2
            · have hout : ∀ kn2, kn2 ∈ gs → p < kn2.1 ∨ kn2.1 + kn2.2 ≤ p := by
                intro kn2 hm2
                by_contra hcon
                push_neg at hcon
                exact h2 ⟨kn2, hm2, by omega⟩
              have hc := rSumZ0D1Go_pres ver gains gs _ _ _ h p hout
              have hin2 : k0 ≤ p ∧ p < k0 + n := by
                rw [he] at hin
                exact hin
              constructor
              · rw [hc.1]
                exact (applyZ0D1_set n _ k0 _ _ _ p hin2.1 hin2.2).1
              · rw [hc.2 HI_GAIN]
                exact (applyZ0D1_set n _ k0 _ _ _ p hin2.1 hin2.2).2
          · exact ih _ _ _ h p ⟨kn, ht, hin⟩

theorem rSumZ0D2Go_pres (ver gains scale off : Nat) :
    ∀ (gs : List (Nat × Nat)) (st : AdcData) (s : List Tok) (r : AdcData × List Tok),
    rSumZ0D2Go ver gains scale off gs st s = some r →
    ∀ p, (∀ kn, kn ∈ gs → p < kn.1 ∨ kn.1 + kn.2 ≤ p) →
      r.1.significant p = st.significant p ∧ ∀ g, r.1.adc_known g p = st.adc_known g p := by
  intro gs
  induction gs with
  | nil =>
    intro st s r h p hout
    simp only [rSumZ0D2Go, Option.some.injEq] at h
    rw [← h]
    exact ⟨rfl, fun g => rfl⟩
  | cons g0 gs ih =>
    obtain ⟨k0, n⟩ := g0
    intro st s r h p hout
    simp only [rSumZ0D2Go] at h
    split at h
    · exact absurd h (by simp)
    · split at h
      · exact absurd h (by simp)
      · split at h
        · exact absurd h (by simp)
        · split at h
          · exact absurd h (by simp)
          · split at h
            · exact absurd h (by simp)
            · have hh2 : p < k0 ∨ k0 + n ≤ p := hout (k0, n) (List.mem_cons_self _ _)
              have htail : ∀ kn, kn ∈ gs → p < kn.1 ∨ kn.1 + kn.2 ≤ p :=
                fun kn hm => hout kn (List.mem_cons_of_mem _ hm)
              have hc := ih _ _ _ h p htail
              constructor
              · rw [hc.1]
                exact (applyZ0D2_pres _ _ n _ k0 _ _ _ _ _ p hh2).1
              · intro g
                rw [hc.2 g]
                exact (applyZ0D2_pres _ _ n _ k0 _ _ _ _ _ p hh2).2 g

theorem rSumZ0D2Go_set (ver gains scale off : Nat) :
    ∀ (gs : List (Nat × Nat)) (st : AdcData) (s : List Tok) (r : AdcData × List Tok),
    rSumZ0D2Go ver gains scale off gs st s = some r →
    ∀ p, (∃ kn, kn ∈ gs ∧ kn.1 ≤ p ∧ p < kn.1 + kn.2) →
      r.1.significant p = 1 ∧ r.1.adc_known HI_GAIN p = 1 := by
  intro gs
  induction gs with
  | nil =>
    intro st s r h p hex
    obtain ⟨kn, hm, _⟩ := hex
    exact absurd hm (List.not_mem_nil kn)
  | cons g0 gs ih =>
    obtain ⟨k0, n⟩ := g0
    intro st s r h p hex
    simp only [rSumZ0D2Go] at h
    split at h
    · exact absurd h (by simp)
    · split at h
      · exact absurd h (by simp)
      · split at h
        · exact absurd h (by simp)
        · split at h
          · exact absurd h (by simp)
          · split at h
            · exact absurd h (by simp)
            · obtain ⟨kn, hm, hin⟩ := hex
              rcases List.mem_cons.mp hm with he | ht
              · by_cases h2 : ∃ kn2, kn2 ∈ gs ∧ kn2.1 ≤ p ∧ p < kn2.1 + kn2.2
                · exact ih _ _ _ h p h2
                · have hout : ∀ kn2, kn2 ∈ gs → p < kn2.1 ∨ kn2.1 + kn2.2 ≤ p := by
                    intro kn2 hm2
                    by_contra hcon
                    push_neg at hcon
                    exact h2 ⟨kn2, hm2, by omega⟩
                  have hc := rSumZ0D2Go_pres ver gains scale off gs _ _ _ h p hout
                  have hin2 : k0 ≤ p ∧ p < k0 + n := by
                    rw [he] at hin
                    exact hin
                  constructor
                  · rw [hc.1]
                    exact (applyZ0D2_set _ _ n _ k0 _ _ _ _ _ p hin2.1 hin2.2).1
                  · rw [hc.2 HI_GAIN]
                    exact (applyZ0D2_set _ _ n _ k0 _ _ _ _ _ p hin2.1 hin2.2).2
              · exact ih _ _ _ h p ⟨kn, ht, hin⟩

/-- Every pixel below the pixel count lies in exactly the 16-pixel group of
its index (io_hess.c group loops advance in steps of 16). -/
theorem groups_cover (npix p : Nat) (hp : p < npix) :
    ∃ kn, kn ∈ groups 0 npix ∧ kn.1 ≤ p ∧ p < kn.1 + kn.2 := by
  refine ⟨(0 + 16 * (p / 16), min 16 (npix - 16 * (p / 16))), ?_, ?_, ?_⟩
  · simp only [groups]
    apply List.mem_map.mpr
    exact ⟨p / 16, List.mem_range.mpr (by omega), rfl⟩
  · omega
  · omega

/-- After a mode-0 payload read succeeds, every in-range pixel is significant
with a known high-gain sum, and with data reduction 0 every in-range gain is
known (io_hess.c:3913-3943, 4014-4029, 4083-4101). -/
theorem rSumAfterHeader_zsm0 {ver drm npix ngains : Nat} {raw : AdcData} {s : List Tok}
    {rc : Int} {y : AdcData}
    (h : rSumAfterHeader ver 0 drm npix ngains raw s = some (rc, y)) :
    ∀ p, p < y.num_pixels →
      y.significant p = 1 ∧
      (HI_GAIN < y.num_gains → y.adc_known HI_GAIN p = 1) ∧
      (drm = 0 → ∀ g, g < y.num_gains → y.adc_known g p = 1) := by
  rcases drm with _ | _ | _ | d3
  · -- data reduction 0: the initialization already set every flag
    simp only [rSumAfterHeader] at h
    split at h
    · simp only [Option.some.injEq, Prod.mk.injEq] at h
      obtain ⟨h1, hy⟩ := h
      rw [← hy]
      intro p hp
      exact absurd hp (Nat.not_lt_zero p)
    · split at h
      · exact absurd h (by simp)
      · rename_i osc raw2 s2 heq
        split at h
        · exact absurd h (by simp)
        · rename_i yr s' heq2
          simp only [Option.some.injEq, Prod.mk.injEq] at h
          obtain ⟨h0, hy⟩ := h
          have hg2 : raw2.num_pixels = npix ∧ raw2.num_gains = ngains := by
            split at heq
            · split at heq
              · exact absurd heq (by simp)
              · split at heq
                · exact absurd heq (by simp)
                · simp only [Option.some.injEq, Prod.mk.injEq] at heq
                  rw [← heq.2.1]
                  exact ⟨rfl, rfl⟩
            · simp only [Option.some.injEq, Prod.mk.injEq] at heq
              rw [← heq.2.1]
              exact ⟨rfl, rfl⟩
          have har := rSumZ0D0Go_arrays _ _ _ _ _ _ heq2
          have hsc := rSumZ0D0Go_scalars _ _ _ _ _ _ heq2
          rw [← hy]
          intro p hp
          have hp' : p < yr.num_pixels := hp
          have hnp : yr.num_pixels = npix := hsc.1.trans hg2.1
          have hp2 : p < npix := by rw [← hnp]; exact hp'
          have hgn : yr.num_gains = ngains := hsc.2.trans hg2.2
          refine ⟨?_, ?_, ?_⟩
          · show yr.significant p = 1
            rw [congrFun har.1 p]
            simp [hp2]
          · intro hgHI
            have hgHI' : HI_GAIN < yr.num_gains := hgHI
            rw [hgn] at hgHI'
            show yr.adc_known HI_GAIN p = 1
            rw [congrFun (congrFun har.2 HI_GAIN) p]
            simp [hp2, hgHI']
          · intro hdrm g hg
            have hg' : g < yr.num_gains := hg
            rw [hgn] at hg'
            show yr.adc_known g p = 1
            rw [congrFun (congrFun har.2 g) p]
            simp [hp2, hg']
  · -- data reduction 1: the group loop sets the flags
    simp only [rSumAfterHeader] at h
    split at h
    · simp only [Option.some.injEq, Prod.mk.injEq] at h
      obtain ⟨h1, hy⟩ := h
      rw [← hy]
      intro p hp
      exact absurd hp (Nat.not_lt_zero p)
    · split at h
      · exact absurd h (by simp)
      · rename_i osc raw2 s2 heq
        split at h
        · exact absurd h (by simp)
        · rename_i yr s' heq2
          simp only [Option.some.injEq, Prod.mk.injEq] at h
          obtain ⟨h0, hy⟩ := h
          have hg2 : raw2.num_pixels = npix ∧ raw2.num_gains = ngains := by
            split at heq
            · split at heq
              · exact absurd heq (by simp)
              · split at heq
                · exact absurd heq (by simp)
                · simp only [Option.some.injEq, Prod.mk.injEq] at heq
                  rw [← heq.2.1]
                  exact ⟨rfl, rfl⟩
            · simp only [Option.some.injEq, Prod.mk.injEq] at heq
              rw [← heq.2.1]
              exact ⟨rfl, rfl⟩
          have hsc := rSumZ0D1Go_scalars _ _ _ _ _ _ heq2
          rw [← hy]
          intro p hp
          have hp' : p < yr.num_pixels := hp
          have hnp : yr.num_pixels = npix := hsc.1.trans hg2.1
          have hp2 : p < npix := by rw [← hnp]; exact hp'
          have hset := rSumZ0D1Go_set _ _ _ _ _ _ heq2 p (groups_cover npix p hp2)
          exact ⟨hset.1, fun hgHI => hset.2, fun hdrm => absurd hdrm (by omega)⟩
  · -- data reduction 2: the group loop sets the flags
    simp only [rSumAfterHeader] at h
    split at h
    · simp only [Option.some.injEq, Prod.mk.injEq] at h
      obtain ⟨h1, hy⟩ := h
      rw [← hy]
      intro p hp
      exact absurd hp (Nat.not_lt_zero p)
    · split at h
      · exact absurd h (by simp)
      · rename_i osc raw2 s2 heq
        split at h
        · exact absurd h (by simp)
        · rename_i yr s' heq2
          simp only [Option.some.injEq, Prod.mk.injEq] at h
          obtain ⟨h0, hy⟩ := h
          have hg2 : raw2.num_pixels = npix ∧ raw2.num_gains = ngains := by
            split at heq
            · split at heq
              · exact absurd heq (by simp)
              · split at heq
                · exact absurd heq (by simp)
                · simp only [Option.some.injEq, Prod.mk.injEq] at heq
                  rw [← heq.2.1]
                  exact ⟨rfl, rfl⟩
            · simp only [Option.some.injEq, Prod.mk.injEq] at heq
              rw [← heq.2.1]
              exact ⟨rfl, rfl⟩
          have hsc := rSumZ0D2Go_scalars _ _ _ _ _ _ _ _ heq2
          rw [← hy]
          intro p hp
          have hp' : p < yr.num_pixels := hp
          have hnp : yr.num_pixels = npix := hsc.1.trans hg2.1
          have hp2 : p < npix := by rw [← hnp]; exact hp'
          have hset := rSumZ0D2Go_set _ _ _ _ _ _ _ _ heq2 p (groups_cover npix p hp2)
          exact ⟨hset.1, fun hgHI => hset.2, fun hdrm => absurd hdrm (by omega)⟩
  · -- data reduction 3 and above: the payload dispatch rejects the record
    simp only [rSumAfterHeader] at h
    split at h
    · simp only [Option.some.injEq, Prod.mk.injEq] at h
      obtain ⟨h1, hy⟩ := h
      rw [← hy]
      intro p hp
      exact absurd hp (Nat.not_lt_zero p)
    · split at h
      · exact absurd h (by simp)
      · rename_i osc raw2 s2 heq
        exact absurd h (by simp)

/-- C5 (amended): when a sum record with zero-suppression mode 0 decodes,
every pixel below the decoded pixel count has its significance flag set to 1
and, when the high gain is within the gain count, a known high-gain sum; the
claimed bit-0 guarantee for EVERY gain holds exactly in data-reduction mode
0, where the reader pre-marks all gains as known - in modes 1 and 2 the
low-gain known bit is cleared for pixels whose low gain was not transmitted
(io_hess.c:4014-4029). -/
theorem C5_zero_sup_sets_significance (rec : Record) (raw0 : AdcData) (rc : Int) (y : AdcData)
    (htype : rec.rtype = IO_TYPE_HESS_TELADCSUM)
    (hz : rec.ident &&& 31 = 0)
    (hread : read_hess_teladc_sums rec raw0 = some (rc, y)) :
    ∀ p, p < y.num_pixels →
      y.significant p = 1 ∧
      (HI_GAIN < y.num_gains → y.adc_known HI_GAIN p = 1) ∧
      ((rec.ident >>> 5) &&& 31 = 0 → ∀ g, g < y.num_gains → y.adc_known g p = 1) := by
  unfold read_hess_teladc_sums at hread
  rw [if_neg (by simp [htype])] at hread
  by_cases hv : rec.version > 4
  · rw [if_pos hv] at hread
    simp only [Option.some.injEq, Prod.mk.injEq] at hread
    obtain ⟨h1, hy⟩ := hread
    rw [← hy]
    intro p hp
    exact absurd hp (Nat.not_lt_zero p)
  · rw [if_neg hv] at hread
    rcases hP : sumPreScounts rec.version ((rec.ident >>> 5) &&& 31) (sumRawA rec raw0) rec.body
      with _ | ⟨rawB, s1⟩ <;> simp only [hP] at hread
    · exact absurd hread (by simp)
    · simp only [readSumsAfterPre] at hread
      rcases hH : sumHdr rec.version rec.ident s1 with _ | ⟨⟨tel, npix, ngains⟩, s2⟩ <;>
        simp only [hH] at hread
      · exact absurd hread (by simp)
      · rw [hz] at hread
        rcases hAf : rSumAfterHeader rec.version 0 ((rec.ident >>> 5) &&& 31)
            npix ngains { rawB with list_known := (rec.ident >>> 10) &&& 1 } s2
          with _ | ⟨rc2, y2⟩ <;> simp only [hAf] at hread
        · exact absurd hread (by simp)
        · simp only [Option.some.injEq, Prod.mk.injEq] at hread
          obtain ⟨hrc2, hy⟩ := hread
          rw [← hy]
          intro p hp
          have hp2 : p < y2.num_pixels := hp
          have hmain := rSumAfterHeader_zsm0 hAf p hp2
          exact ⟨hmain.1, fun hgh => hmain.2.1 hgh, fun hd g hg => hmain.2.2 hd g hg⟩

/-- Witness for C5: the concrete mode-0 record cx5rec decodes, its first
pixel is significant and its high-gain sum known. -/
theorem C5_zero_sup_sets_significance_witness :
    ∃ rc y, read_hess_teladc_sums cx5rec zeroAdc = some (rc, y) ∧
      0 < y.num_pixels ∧ y.significant 0 = 1 ∧
      (HI_GAIN < y.num_gains → y.adc_known HI_GAIN 0 = 1) := by
  rcases hr : read_hess_teladc_sums cx5rec zeroAdc with _ | ⟨rc, y⟩
  · have hs : (read_hess_teladc_sums cx5rec zeroAdc).isSome = true := rfl
    rw [hr] at hs
    simp at hs
  · have hp : 0 < y.num_pixels := by
      have hnp : (read_hess_teladc_sums cx5rec zeroAdc).map (fun q => q.2.num_pixels)
          = some 1 := rfl
      rw [hr] at hnp
      simp only [Option.map_some', Option.some.injEq] at hnp
      omega
    have hm := C5_zero_sup_sets_significance cx5rec zeroAdc rc y rfl rfl hr 0 hp
    exact ⟨rc, y, rfl, hp, hm.1, fun hh => hm.2.1 hh⟩

/-- Witness for C4 at cx4 (40000 pixels, zero-suppression request 0): the
record is accepted and its version is not 4. -/
theorem C4_explicit_pixel_count_witness :
    ∃ rec, write_hess_teladc_sums cx4 = WResult.ok rec ∧ ¬ rec.version = 4 := by
  have hok : isOk (write_hess_teladc_sums cx4) = true := by rfl
  rcases hw : write_hess_teladc_sums cx4 with rc | _ | _ | rec
  · rw [hw] at hok; simp [isOk] at hok
  · rw [hw] at hok; simp [isOk] at hok
  · rw [hw] at hok; simp [isOk] at hok
  · refine ⟨rec, rfl, fun h4 => ?_⟩
    have hz := (C4_explicit_pixel_count cx4 rec rfl hw).1.mp h4
    have h0 : cx4.zero_sup_mode = 0 := rfl
    omega


/-!  Frame effects of the sample reader on the sum fields (claim C9). -/

theorem fset2_other {gw pw g p : Nat} (h : g ≠ gw ∨ p ≠ pw) (f : Nat → Nat → Nat) (v : Nat) :
    fset2 f gw pw v g p = f g p := by
  unfold fset2
  rcases h with h | h <;> simp [h]

theorem fset2_same (f : Nat → Nat → Nat) (g q v : Nat) : fset2 f g q v g q = v := by
  simp [fset2]

theorem fsetTrace_other {gw pw g p : Nat} (h : g ≠ gw ∨ p ≠ pw)
    (f : Nat → Nat → Nat → Nat) (tr : List Nat) (c : Nat) :
    fsetTrace f gw pw tr g p c = f g p c := by
  unfold fsetTrace
  rcases h with h | h <;> simp [h]

theorem or2_and1 (x : Nat) : (x ||| 2) &&& 1 = x &&& 1 := by
  apply Nat.eq_of_testBit_eq
  intro i
  rw [Nat.testBit_land, Nat.testBit_land, Nat.testBit_lor]
  rcases i with _ | i
  · rw [show Nat.testBit 2 0 = false from rfl, show Nat.testBit 1 0 = true from rfl]
    simp
  · rw [testBit_hi (k := 1) (a := 1) (by norm_num) (by omega)]
    simp

theorem and1_and1 (x : Nat) : (x &&& 1) &&& 1 = x &&& 1 := by
  apply Nat.eq_of_testBit_eq
  intro i
  rw [Nat.testBit_land, Nat.testBit_land, Bool.and_assoc, Bool.and_self]

theorem traceSumOf_congr {st st2 : AdcData} {g p n : Nat}
    (h : ∀ i, st.adc_sample g p i = st2.adc_sample g p i) :
    traceSumOf st g p n = traceSumOf st2 g p n := by
  unfold traceSumOf
  induction n with
  | zero => rfl
  | succ n ih =>
    rw [List.range_succ, List.foldl_append, List.foldl_append]
    simp only [List.foldl_cons, List.foldl_nil]
    rw [ih, h n]

/-- A plain-path pixel decode touches no cell other than its own
(io_hess.c:4895-4930). -/
theorem rSampPixelPlain_pres {ver what nsamp gw pw : Nat} {st : AdcData} {s : List Tok}
    {r : AdcData × List Tok} (h : rSampPixelPlain ver what nsamp gw pw st s = some r)
    (g p : Nat) (hor : g ≠ gw ∨ p ≠ pw) :
    r.1.adc_known g p = st.adc_known g p ∧ r.1.adc_sum g p = st.adc_sum g p ∧
      ∀ i, r.1.adc_sample g p i = st.adc_sample g p i := by
  obtain ⟨st', s'⟩ := r
  simp only [rSampPixelPlain] at h
  split at h
  · exact absurd h (by simp)
  · simp only [Option.some.injEq, Prod.mk.injEq] at h
    obtain ⟨hst, hs⟩ := h
    rw [← hst]
    refine ⟨?_, ?_, ?_⟩
    · split
      · split <;> simp [fset2_other hor, fsetTrace_other hor]
      · simp [fset2_other hor, fsetTrace_other hor]
    · split
      · split <;> simp [fset2_other hor, fsetTrace_other hor]
      · simp [fset2_other hor, fsetTrace_other hor]
    · intro i
      split
      · split <;> simp [fset2_other hor, fsetTrace_other hor]
      · simp [fset2_other hor, fsetTrace_other hor]

/-- A plain-path pixel decode of a cell whose sum-known bit is set keeps the
sum and that bit (io_hess.c:4906-4929: the derivation branch is guarded by
known == 0). -/
theorem rSampPixelPlain_keep {ver what nsamp gw pw : Nat} {st : AdcData} {s : List Tok}
    {r : AdcData × List Tok} (h : rSampPixelPlain ver what nsamp gw pw st s = some r)
    (g p : Nat) (hk : st.adc_known g p &&& 1 = 1) :
    r.1.adc_known g p &&& 1 = 1 ∧ r.1.adc_sum g p = st.adc_sum g p := by
  by_cases hc : g = gw ∧ p = pw
  · obtain ⟨hg, hp⟩ := hc
    subst hg
    subst hp
    obtain ⟨st', s'⟩ := r
    simp only [rSampPixelPlain] at h
    split at h
    · exact absurd h (by simp)
    · rename_i tr s1 htr
      simp only [Option.some.injEq, Prod.mk.injEq] at h
      obtain ⟨hst, hs⟩ := h
      rw [← hst]
      have hnz : ¬(({ st with adc_sample := fsetTrace st.adc_sample g p tr } : AdcData).adc_known g p = 0) := by
        intro h0
        have h0' : st.adc_known g p = 0 := h0
        rw [h0'] at hk
        simp at hk
      rw [if_neg hnz]
      constructor
      · simp only [fset2_same, or2_and1]
        exact hk
      · rfl
  · have hor : g ≠ gw ∨ p ≠ pw := by tauto
    have hp2 := rSampPixelPlain_pres h g p hor
    rw [hp2.1, hp2.2.1]
    exact ⟨hk, rfl⟩

/-- Plain-path pixel decode of an unknown cell with the RAWSUM option: the
sum becomes the freshly decoded trace sum and both known bits are set
(io_hess.c:4906-4929). -/
theorem rSampPixelPlain_visit {ver what nsamp gw pw : Nat} {st : AdcData} {s : List Tok}
    {r : AdcData × List Tok} (h : rSampPixelPlain ver what nsamp gw pw st s = some r)
    (hRS : what &&& RAWSUM_FLAG ≠ 0) (h0 : st.adc_known gw pw = 0) :
    r.1.adc_known gw pw = 3 ∧ r.1.adc_sum gw pw = traceSumOf r.1 gw pw nsamp := by
  obtain ⟨st', s'⟩ := r
  simp only [rSampPixelPlain] at h
  split at h
  · exact absurd h (by simp)
  · rename_i tr s1 htr
    simp only [Option.some.injEq, Prod.mk.injEq] at h
    obtain ⟨hst, hs⟩ := h
    rw [← hst]
    have hz : ({ st with adc_sample := fsetTrace st.adc_sample gw pw tr } : AdcData).adc_known gw pw = 0 := h0
    rw [if_pos hz, if_pos hRS]
    constructor
    · simp [fset2_same]
    · simp only [fset2_same]
      try rfl

theorem rSampPixelPlain_scalars {ver what nsamp gw pw : Nat} {st : AdcData} {s : List Tok}
    {r : AdcData × List Tok} (h : rSampPixelPlain ver what nsamp gw pw st s = some r) :
    r.1.num_pixels = st.num_pixels ∧ r.1.num_gains = st.num_gains ∧
      r.1.num_samples = st.num_samples := by
  obtain ⟨st', s'⟩ := r
  simp only [rSampPixelPlain] at h
  split at h
  · exact absurd h (by simp)
  · simp only [Option.some.injEq, Prod.mk.injEq] at h
    obtain ⟨hst, hs⟩ := h
    rw [← hst]
    refine ⟨?_, ?_, ?_⟩
    · split
      · split <;> rfl
      · rfl
    · split
      · split <;> rfl
      · rfl
    · split
      · split <;> rfl
      · rfl

/-- A suppressed-path pixel decode touches no cell other than its own
(io_hess.c:4854-4886). -/
theorem rSampPixelZS_pres {what nsamp gw pw : Nat} {st : AdcData} {s : List Tok}
    {r : AdcData × List Tok} (h : rSampPixelZS what nsamp gw pw st s = some r)
    (g p : Nat) (hor : g ≠ gw ∨ p ≠ pw) :
    r.1.adc_known g p = st.adc_known g p ∧ r.1.adc_sum g p = st.adc_sum g p ∧
      ∀ i, r.1.adc_sample g p i = st.adc_sample g p i := by
  obtain ⟨st', s'⟩ := r
  simp only [rSampPixelZS] at h
  split at h
  · exact absurd h (by simp)
  · simp only [Option.some.injEq, Prod.mk.injEq] at h
    obtain ⟨hst, hs⟩ := h
    rw [← hst]
    refine ⟨?_, ?_, ?_⟩
    · split
      · split <;> simp [fset2_other hor, fsetTrace_other hor]
      · simp [fset2_other hor, fsetTrace_other hor]
    · split
      · split <;> simp [fset2_other hor, fsetTrace_other hor]
      · simp [fset2_other hor, fsetTrace_other hor]
    · intro i
      split
      · split <;> simp [fset2_other hor, fsetTrace_other hor]
      · simp [fset2_other hor, fsetTrace_other hor]

/-- A suppressed-path pixel decode of a cell whose sum-known bit is set keeps
the sum and that bit (io_hess.c:4863-4885). -/
theorem rSampPixelZS_keep {what nsamp gw pw : Nat} {st : AdcData} {s : List Tok}
    {r : AdcData × List Tok} (h : rSampPixelZS what nsamp gw pw st s = some r)
    (g p : Nat) (hk : st.adc_known g p &&& 1 = 1) :
    r.1.adc_known g p &&& 1 = 1 ∧ r.1.adc_sum g p = st.adc_sum g p := by
  by_cases hc : g = gw ∧ p = pw
  · obtain ⟨hg, hp⟩ := hc
    subst hg
    subst hp
    obtain ⟨st', s'⟩ := r
    simp only [rSampPixelZS] at h
    split at h
    · exact absurd h (by simp)
    · rename_i tr s1 htr
      simp only [Option.some.injEq, Prod.mk.injEq] at h
      obtain ⟨hst, hs⟩ := h
      rw [← hst]
      have hnz : ¬(({ st with
          adc_sample := fsetTrace st.adc_sample g p tr,
          significant := fset st.significant p (st.significant p ||| 32) } : AdcData).adc_known g p = 0) := by
        intro h0
        have h0' : st.adc_known g p = 0 := h0
        rw [h0'] at hk
        simp at hk
      rw [if_neg hnz]
      constructor
      · simp only [fset2_same, or2_and1]
        exact hk
      · rfl
  · have hor : g ≠ gw ∨ p ≠ pw := by tauto
    have hp2 := rSampPixelZS_pres h g p hor
    rw [hp2.1, hp2.2.1]
    exact ⟨hk, rfl⟩

/-- Cells with a known sum keep it through a whole pixel fold. -/
theorem rSampPixGo_keep {step : Nat → AdcData → List Tok → Option (AdcData × List Tok)}
    (hstep : ∀ q st s r, step q st s = some r → ∀ g p, st.adc_known g p &&& 1 = 1 →
        r.1.adc_known g p &&& 1 = 1 ∧ r.1.adc_sum g p = st.adc_sum g p) :
    ∀ (ps : List Nat) (st : AdcData) (s : List Tok) (r : AdcData × List Tok),
    rSampPixGo step ps st s = some r → ∀ g p, st.adc_known g p &&& 1 = 1 →
      r.1.adc_known g p &&& 1 = 1 ∧ r.1.adc_sum g p = st.adc_sum g p := by
  intro ps
  induction ps with
  | nil =>
    intro st s r h g p hk
    simp only [rSampPixGo, Option.some.injEq] at h
    rw [← h]
    exact ⟨hk, rfl⟩
  | cons q ps ih =>
    intro st s r h g p hk
    simp only [rSampPixGo] at h
    split at h
    · exact absurd h (by simp)
    · rename_i st1 s1 hq
      have h1 := hstep q st s _ hq g p hk
      have h2 := ih _ _ _ h g p h1.1
      exact ⟨h2.1, h2.2.trans h1.2⟩

theorem rSampRangeGo_keep {step : Nat → AdcData → List Tok → Option (AdcData × List Tok)}
    (hstep : ∀ q st s r, step q st s = some r → ∀ g p, st.adc_known g p &&& 1 = 1 →
        r.1.adc_known g p &&& 1 = 1 ∧ r.1.adc_sum g p = st.adc_sum g p) :
    ∀ (rl : List (Nat × Int)) (st : AdcData) (s : List Tok) (r : AdcData × List Tok),
    rSampRangeGo step rl st s = some r → ∀ g p, st.adc_known g p &&& 1 = 1 →
      r.1.adc_known g p &&& 1 = 1 ∧ r.1.adc_sum g p = st.adc_sum g p := by
  intro rl
  induction rl with
  | nil =>
    intro st s r h g p hk
    simp only [rSampRangeGo, Option.some.injEq] at h
    rw [← h]
    exact ⟨hk, rfl⟩
  | cons r0 rl ih =>
    intro st s r h g p hk
    simp only [rSampRangeGo] at h
    split at h
    · exact absurd h (by simp)
    · rename_i st1 s1 hq
      have h1 := rSampPixGo_keep hstep _ _ _ _ hq g p hk
      have h2 := ih _ _ _ h g p h1.1
      exact ⟨h2.1, h2.2.trans h1.2⟩

theorem rSampGainGo_keep {what nsamp : Nat} {rl : List (Nat × Int)} :
    ∀ (gs : List Nat) (st : AdcData) (s : List Tok) (r : AdcData × List Tok),
    rSampGainGo what nsamp rl gs st s = some r → ∀ g p, st.adc_known g p &&& 1 = 1 →
      r.1.adc_known g p &&& 1 = 1 ∧ r.1.adc_sum g p = st.adc_sum g p := by
  intro gs
  induction gs with
  | nil =>
    intro st s r h g p hk
    simp only [rSampGainGo, Option.some.injEq] at h
    rw [← h]
    exact ⟨hk, rfl⟩
  | cons g0 gs ih =>
    intro st s r h g p hk
    simp only [rSampGainGo] at h
    split at h
    · exact absurd h (by simp)
    · rename_i st1 s1 hq
      have h1 := rSampRangeGo_keep (fun q st s r hq2 g p hk2 => rSampPixelZS_keep hq2 g p hk2)
        _ _ _ _ hq g p hk
      have h2 := ih _ _ _ h g p h1.1
      exact ⟨h2.1, h2.2.trans h1.2⟩

theorem rSampPlainGainGo_keep {ver what nsamp npix : Nat} :
    ∀ (gs : List Nat) (st : AdcData) (s : List Tok) (r : AdcData × List Tok),
    rSampPlainGainGo ver what nsamp npix gs st s = some r →
    ∀ g p, st.adc_known g p &&& 1 = 1 →
      r.1.adc_known g p &&& 1 = 1 ∧ r.1.adc_sum g p = st.adc_sum g p := by
  intro gs
  induction gs with
  | nil =>
    intro st s r h g p hk
    simp only [rSampPlainGainGo, Option.some.injEq] at h
    rw [← h]
    exact ⟨hk, rfl⟩
  | cons g0 gs ih =>
    intro st s r h g p hk
    simp only [rSampPlainGainGo] at h
    split at h
    · exact absurd h (by simp)
    · rename_i st1 s1 hq
      have h1 := rSampPixGo_keep (fun q st s r hq2 g p hk2 => rSampPixelPlain_keep hq2 g p hk2)
        _ _ _ _ hq g p hk
      have h2 := ih _ _ _ h g p h1.1
      exact ⟨h2.1, h2.2.trans h1.2⟩

/-- Pixels outside the processed list (or another gain) are untouched by a
plain pixel fold. -/
theorem rSampPixGo_presP {ver what nsamp gw : Nat} :
    ∀ (ps : List Nat) (st : AdcData) (s : List Tok) (r : AdcData × List Tok),
    rSampPixGo (rSampPixelPlain ver what nsamp gw) ps st s = some r →
    ∀ g p, g ≠ gw ∨ p ∉ ps →
      r.1.adc_known g p = st.adc_known g p ∧ r.1.adc_sum g p = st.adc_sum g p ∧
        ∀ i, r.1.adc_sample g p i = st.adc_sample g p i := by
  intro ps
  induction ps with
  | nil =>
    intro st s r h g p hout
    simp only [rSampPixGo, Option.some.injEq] at h
    rw [← h]
    exact ⟨rfl, rfl, fun i => rfl⟩
  | cons q ps ih =>
    intro st s r h g p hout
    simp only [rSampPixGo] at h
    split at h
    · exact absurd h (by simp)
    · rename_i st1 s1 hq
      have hstep : g ≠ gw ∨ p ≠ q := by
        rcases hout with h1 | h1
        · exact Or.inl h1
        · exact Or.inr (fun he => h1 (by rw [he]; exact List.mem_cons_self q ps))
      have htail : g ≠ gw ∨ p ∉ ps := by
        rcases hout with h1 | h1
        · exact Or.inl h1
        · exact Or.inr (fun hm => h1 (List.mem_cons_of_mem q hm))
      have h1 := rSampPixelPlain_pres hq g p hstep
      have h2 := ih _ _ _ h g p htail
      exact ⟨h2.1.trans h1.1, h2.2.1.trans h1.2.1,
             fun i => (h2.2.2 i).trans (h1.2.2 i)⟩

theorem rSampPlainGainGo_pres {ver what nsamp npix : Nat} :
    ∀ (gs : List Nat) (st : AdcData) (s : List Tok) (r : AdcData × List Tok),
    rSampPlainGainGo ver what nsamp npix gs st s = some r →
    ∀ g p, g ∉ gs →
      r.1.adc_known g p = st.adc_known g p ∧ r.1.adc_sum g p = st.adc_sum g p ∧
        ∀ i, r.1.adc_sample g p i = st.adc_sample g p i := by
  intro gs
  induction gs with
  | nil =>
    intro st s r h g p hout
    simp only [rSampPlainGainGo, Option.some.injEq] at h
    rw [← h]
    exact ⟨rfl, rfl, fun i => rfl⟩
  | cons g0 gs ih =>
    intro st s r h g p hout
    simp only [rSampPlainGainGo] at h
    split at h
    · exact absurd h (by simp)
    · rename_i st1 s1 hq
      have hne : g ≠ g0 := fun he => hout (by rw [he]; exact List.mem_cons_self g0 gs)
      have h1 := rSampPixGo_presP _ _ _ _ hq g p (Or.inl hne)
      have h2 := ih _ _ _ h g p (fun hm => hout (List.mem_cons_of_mem g0 hm))
      exact ⟨h2.1.trans h1.1, h2.2.1.trans h1.2.1,
             fun i => (h2.2.2 i).trans (h1.2.2 i)⟩

theorem rSampPixGo_scalars {step : Nat → AdcData → List Tok → Option (AdcData × List Tok)}
    (hstep : ∀ q st s r, step q st s = some r →
        r.1.num_pixels = st.num_pixels ∧ r.1.num_gains = st.num_gains ∧
          r.1.num_samples = st.num_samples) :
    ∀ (ps : List Nat) (st : AdcData) (s : List Tok) (r : AdcData × List Tok),
    rSampPixGo step ps st s = some r →
      r.1.num_pixels = st.num_pixels ∧ r.1.num_gains = st.num_gains ∧
        r.1.num_samples = st.num_samples := by
  intro ps
  induction ps with
  | nil =>
    intro st s r h
    simp only [rSampPixGo, Option.some.injEq] at h
    rw [← h]
    exact ⟨rfl, rfl, rfl⟩
  | cons q ps ih =>
    intro st s r h
    simp only [rSampPixGo] at h
    split at h
    · exact absurd h (by simp)
    · rename_i st1 s1 hq
      have h1 := hstep q st s _ hq
      have h2 := ih _ _ _ h
      exact ⟨h2.1.trans h1.1, h2.2.1.trans h1.2.1, h2.2.2.trans h1.2.2⟩

theorem rSampPlainGainGo_scalars {ver what nsamp npix : Nat} :
    ∀ (gs : List Nat) (st : AdcData) (s : List Tok) (r : AdcData × List Tok),
    rSampPlainGainGo ver what nsamp npix gs st s = some r →
      r.1.num_pixels = st.num_pixels ∧ r.1.num_gains = st.num_gains ∧
        r.1.num_samples = st.num_samples := by
  intro gs
  induction gs with
  | nil =>
    intro st s r h
    simp only [rSampPlainGainGo, Option.some.injEq] at h
    rw [← h]
    exact ⟨rfl, rfl, rfl⟩
  | cons g0 gs ih =>
    intro st s r h
    simp only [rSampPlainGainGo] at h
    split at h
    · exact absurd h (by simp)
    · rename_i st1 s1 hq
      have h1 := rSampPixGo_scalars (fun q st s r hq2 => rSampPixelPlain_scalars hq2)
        _ _ _ _ hq
      have h2 := ih _ _ _ h
      exact ⟨h2.1.trans h1.1, h2.2.1.trans h1.2.1, h2.2.2.trans h1.2.2⟩

/-- In a duplicate-free plain pixel fold with the RAWSUM option, an unknown
cell that receives samples ends with both known bits set and its sum equal to
the trace sum of the final state. -/
theorem rSampPixGo_visit {ver what nsamp gw : Nat} :
    ∀ (ps : List Nat) (st : AdcData) (s : List Tok) (r : AdcData × List Tok),
    rSampPixGo (rSampPixelPlain ver what nsamp gw) ps st s = some r →
    ps.Nodup → what &&& RAWSUM_FLAG ≠ 0 →
    ∀ p, p ∈ ps → st.adc_known gw p = 0 →
      r.1.adc_known gw p = 3 ∧ r.1.adc_sum gw p = traceSumOf r.1 gw p nsamp := by
  intro ps
  induction ps with
  | nil =>
    intro st s r h hnd hRS p hp h0
    exact absurd hp (List.not_mem_nil p)
  | cons q ps ih =>
    intro st s r h hnd hRS p hp h0
    simp only [rSampPixGo] at h
    split at h
    · exact absurd h (by simp)
    · rename_i st1 s1 hq
      rcases List.mem_cons.mp hp with he | ht
      · subst he
        have hv := rSampPixelPlain_visit hq hRS h0
        have hnp : p ∉ ps := (List.nodup_cons.mp hnd).1
        have hpres := rSampPixGo_presP ps st1 s1 r h gw p (Or.inr hnp)
        exact ⟨hpres.1.trans hv.1,
          (hpres.2.1.trans hv.2).trans (traceSumOf_congr fun i => (hpres.2.2 i).symm)⟩
      · have hq_ne : q ≠ p := fun he2 => (List.nodup_cons.mp hnd).1 (by rw [he2]; exact ht)
        have hpr := rSampPixelPlain_pres hq gw p (Or.inr (fun he2 => hq_ne he2.symm))
        have h0' : st1.adc_known gw p = 0 := hpr.1.trans h0
        exact ih _ _ _ h (List.nodup_cons.mp hnd).2 hRS p ht h0'

theorem rSampPlainGainGo_visit {ver what nsamp npix : Nat} :
    ∀ (gs : List Nat) (st : AdcData) (s : List Tok) (r : AdcData × List Tok),
    rSampPlainGainGo ver what nsamp npix gs st s = some r →
    gs.Nodup → what &&& RAWSUM_FLAG ≠ 0 →
    ∀ g p, g ∈ gs → p < npix → st.adc_known g p = 0 →
      r.1.adc_known g p = 3 ∧ r.1.adc_sum g p = traceSumOf r.1 g p nsamp := by
  intro gs
  induction gs with
  | nil =>
    intro st s r h hnd hRS g p hg hp h0
    exact absurd hg (List.not_mem_nil g)
  | cons g0 gs ih =>
    intro st s r h hnd hRS g p hg hp h0
    simp only [rSampPlainGainGo] at h
    split at h
    · exact absurd h (by simp)
    · rename_i st1 s1 hq
      rcases List.mem_cons.mp hg with he | ht
      · subst he
        have hv := rSampPixGo_visit _ _ _ _ hq (List.nodup_range npix) hRS p
          (List.mem_range.mpr hp) h0
        have hng : g ∉ gs := (List.nodup_cons.mp hnd).1
        have hpres := rSampPlainGainGo_pres gs st1 s1 r h g p hng
        exact ⟨hpres.1.trans hv.1,
          (hpres.2.1.trans hv.2).trans (traceSumOf_congr fun i => (hpres.2.2 i).symm)⟩
      · have hne : g0 ≠ g := fun he2 => (List.nodup_cons.mp hnd).1 (by rw [he2]; exact ht)
        have hpr := rSampPixGo_presP _ _ _ _ hq g p (Or.inl (fun he2 => hne he2.symm))
        have h0' : st1.adc_known g p = 0 := hpr.1.trans h0
        exact ih _ _ _ h (List.nodup_cons.mp hnd).2 hRS g p ht hp h0'

/-- C9 (counterexample to the claim as stated): on the zero-suppressed path
the derivation half fails for a record whose pixel list names the same pixel
twice.  Decoding cx9rec (pixel 0 listed twice with traces [5] and [9]) into a
fresh destination with the RAWSUM option succeeds: the first visit derives
adc_sum = 5 and marks the channel known, so the second visit - which
overwrites the stored trace with [9] - keeps that sum (io_hess.c:4864-4881),
and the final sum 5 is not the sum 9 of the decoded trace samples of the
previously unknown in-range cell. -/
theorem C9_rawsum_counterexample :
    (read_hess_teladc_samples cx9rec zeroAdc RAWSUM_FLAG).map
        (fun r => (r.1, r.2.num_gains, r.2.num_pixels, r.2.num_samples,
                   r.2.adc_known HI_GAIN 0, r.2.adc_sum HI_GAIN 0,
                   traceSumOf r.2 HI_GAIN 0 r.2.num_samples)) =
        some (0, 1, 1, 1, 3, 5, 9) ∧
      zeroAdc.adc_known HI_GAIN 0 = 0 ∧ RAWSUM_FLAG &&& RAWSUM_FLAG ≠ 0 := by
  refine ⟨rfl, rfl, ?_⟩
  decide

/-- C9 (amended): sample decoding never invalidates sums that were already
known - for every cell whose adc_known bit 0 was set on entry, the sum value
and that bit survive any outcome of read_hess_teladc_samples; and on the
plain path (no sample-mode zero suppression), with the RAWSUM option, every
in-range cell that was fully unknown on entry ends with adc_known = 3 and its
sum equal to the sum of its freshly decoded trace samples. -/
theorem C9_sample_sums_preserved (rec : Record) (raw0 : AdcData) (what : Nat) (rc : Int)
    (y : AdcData) (hread : read_hess_teladc_samples rec raw0 what = some (rc, y)) :
    (∀ g p, raw0.adc_known g p &&& 1 = 1 →
        y.adc_known g p &&& 1 = 1 ∧ y.adc_sum g p = raw0.adc_sum g p) ∧
    (rec.ident &&& 31 = 0 → what &&& RAWSUM_FLAG ≠ 0 →
        ∀ g p, g < y.num_gains → p < y.num_pixels → raw0.adc_known g p = 0 →
          y.adc_known g p = 3 ∧ y.adc_sum g p = traceSumOf y g p y.num_samples) := by
  simp only [read_hess_teladc_samples] at hread
  split at hread
  · exact absurd hread (by simp)
  · split at hread
    · simp only [Option.some.injEq, Prod.mk.injEq] at hread
      obtain ⟨h1, hy⟩ := hread
      rw [← hy]
      constructor
      · intro g p hk
        exact ⟨hk, rfl⟩
      · intro hz hRS g p hg hp h0
        exact absurd hp (Nat.not_lt_zero p)
    · split at hread
      · simp only [Option.some.injEq, Prod.mk.injEq] at hread
        obtain ⟨h1, hy⟩ := hread
        rw [← hy]
        constructor
        · intro g p hk
          exact ⟨hk, rfl⟩
        · intro hz hRS g p hg hp h0
          exact absurd hp (Nat.not_lt_zero p)
      · rename_i hguard
        push_neg at hguard
        split at hread
        · exact absurd hread (by simp)
        · rename_i tel npix ngains s1 hhdr
          split at hread
          · exact absurd hread (by simp)
          · rename_i ns s2 hns
            split at hread
            · simp only [Option.some.injEq, Prod.mk.injEq] at hread
              obtain ⟨h1, hy⟩ := hread
              rw [← hy]
              constructor
              · intro g p hk
                exact ⟨hk, rfl⟩
              · intro hz hRS g p hg hp h0
                exact absurd hp (Nat.not_lt_zero p)
            · split at hread
              · -- zero-suppressed sample path
                rename_i hzs
                simp only [rSampZS] at hread
                split at hread
                · exact absurd hread (by simp)
                · rename_i ls s3 hls
                  split at hread
                  · -- oversized range list: the masked state is returned
                    simp only [Option.some.injEq, Prod.mk.injEq] at hread
                    obtain ⟨h1, hy⟩ := hread
                    rw [← hy]
                    constructor
                    · intro g p hk
                      have hk2 : raw0.adc_known g p % 2 = 1 := by
                        rw [← Nat.and_one_is_mod]
                        exact hk
                      refine ⟨?_, rfl⟩
                      by_cases hcase : (g = 0 ∨ g = 1) ∧ p < npix
                      · simp [sampMask, sampRawC, hcase, and1_and1, hk, hk2]
                      · simp [sampMask, sampRawC, hcase, hk, hk2]
                    · intro hz hRS g p hg hp h0
                      exact absurd hz hzs
                  · split at hread
                    · exact absurd hread (by simp)
                    · rename_i rl s4 hrl
                      rw [if_neg (fun hc => hc.1 hguard.2.1)] at hread
                      split at hread
                      · exact absurd hread (by simp)
                      · rename_i st1 s7 hgo
                        simp only [Option.some.injEq, Prod.mk.injEq] at hread
                        obtain ⟨hrc, hy⟩ := hread
                        have hyk : ∀ g p, y.adc_known g p = st1.adc_known g p := by
                          rw [← hy]
                          intro g p
                          rfl
                        have hysum : ∀ g p, y.adc_sum g p = st1.adc_sum g p := by
                          rw [← hy]
                          intro g p
                          rfl
                        constructor
                        · intro g p hk
                          have hk2 : raw0.adc_known g p % 2 = 1 := by
                            rw [← Nat.and_one_is_mod]
                            exact hk
                          have hkeep := rSampGainGo_keep _ _ _ _ hgo g p (by
                            by_cases hcase : (g = 0 ∨ g = 1) ∧ p < npix
                            · simp [sampMask, sampRawC, hcase, and1_and1, hk, hk2]
                            · simp [sampMask, sampRawC, hcase, hk, hk2])
                          rw [hyk g p, hysum g p]
                          exact ⟨hkeep.1, hkeep.2⟩
                        · intro hz hRS g p hg hp h0
                          exact absurd hz hzs
              · -- plain sample path
                rename_i hzs0
                simp only [rSampPlain] at hread
                split at hread
                · exact absurd hread (by simp)
                · rename_i st1 sX hgo
                  simp only [Option.some.injEq, Prod.mk.injEq] at hread
                  obtain ⟨hrc, hy⟩ := hread
                  have hscal := rSampPlainGainGo_scalars _ _ _ _ hgo
                  have hyn : y.num_samples = ns.toNat := by
                    rw [← hy]
                    exact hscal.2.2
                  have hyg : y.num_gains = ngains := by
                    rw [← hy]
                    exact hscal.2.1
                  have hyp : y.num_pixels = npix := by
                    rw [← hy]
                    exact hscal.1
                  have hyk : ∀ g p, y.adc_known g p = st1.adc_known g p := by
                    rw [← hy]
                    intro g p
                    rfl
                  have hysum : ∀ g p, y.adc_sum g p = st1.adc_sum g p := by
                    rw [← hy]
                    intro g p
                    rfl
                  have hysamp : ∀ g p i, y.adc_sample g p i = st1.adc_sample g p i := by
                    rw [← hy]
                    intro g p i
                    rfl
                  constructor
                  · intro g p hk
                    have hkeep := rSampPlainGainGo_keep _ _ _ _ hgo g p hk
                    rw [hyk g p, hysum g p]
                    exact ⟨hkeep.1, hkeep.2⟩
                  · intro hz hRS g p hg hp h0
                    rw [hyg] at hg
                    rw [hyp] at hp
                    have hv := rSampPlainGainGo_visit _ _ _ _ hgo (List.nodup_range ngains)
                      hRS g p (List.mem_range.mpr hg) hp h0
                    rw [hyk g p, hysum g p, hyn]
                    exact ⟨hv.1, hv.2.trans (traceSumOf_congr fun i => (hysamp g p i).symm)⟩

/-- Witness for C9: the concrete plain sample record wit9rec (two pixels,
one gain) decoded into wit9raw (whose high-gain sum of pixel 0 is already
known with value 123) keeps that sum and its known bit, and derives the sum
of the previously unknown pixel 1 from its decoded trace. -/
theorem C9_sample_sums_preserved_witness :
    ∃ rc y, read_hess_teladc_samples wit9rec wit9raw RAWSUM_FLAG = some (rc, y) ∧
      y.adc_known 0 0 &&& 1 = 1 ∧ y.adc_sum 0 0 = 123 ∧
      y.adc_known 0 1 = 3 ∧ y.adc_sum 0 1 = traceSumOf y 0 1 y.num_samples := by
  rcases hr : read_hess_teladc_samples wit9rec wit9raw RAWSUM_FLAG with _ | ⟨rc, y⟩
  · have hs : (read_hess_teladc_samples wit9rec wit9raw RAWSUM_FLAG).isSome = true := rfl
    rw [hr] at hs
    simp at hs
  · have h := C9_sample_sums_preserved wit9rec wit9raw RAWSUM_FLAG rc y hr
    have h1 := h.1 0 0 rfl
    have hng : (read_hess_teladc_samples wit9rec wit9raw RAWSUM_FLAG).map
        (fun r => (r.2.num_gains, r.2.num_pixels)) = some (1, 2) := rfl
    rw [hr] at hng
    simp only [Option.map_some', Option.some.injEq, Prod.mk.injEq] at hng
    have h2 := h.2 (by decide) (by decide) 0 1 (by rw [hng.1]; decide)
      (by rw [hng.2]; decide) (by decide)
    exact ⟨rc, y, rfl, h1.1, h1.2.trans rfl, h2.1, h2.2⟩

end Hessio
